import Mathlib

/-!
Verification of the Encrypted-Vault engine (`src/utils/core.py`,
`src/utils/maintain.py`, `src/utils/dataModels.py`, `src/storage/vault.py`,
`src/crypto/aead.py`, `src/crypto/hash.py`,
`src/ui/gui_components/file_operations.py`) against its specification.

Shallow embedding conventions:

* Byte strings and Python `str` values are `List Nat`.  A cell of a real byte
  string holds a value below 256; cells produced by the idealised
  cryptographic primitives may hold larger naturals carrying the symbolic
  identity of keys and nonces.
* The cryptographic library functions (AES-256-GCM of
  `cryptography.hazmat.primitives.ciphers.aead.AESGCM`, the
  Argon2id+SHA3-512 derivation of `crypto/hash.py`, `os.urandom`,
  `uuid.uuid4`, `base64.b64encode`/`b64decode`) are modelled as ideal,
  *executable* primitives that expose exactly the interface contract the
  vault code relies on: AEAD ciphertexts are 16 cells (the GCM tag) longer
  than the plaintext, decryption inverts encryption under the same key and
  nonce, and decryption under any other occurring key or nonce fails
  (the idealisation of "fails except with negligible probability").
  Randomness is an explicit draw counter threaded through every operation,
  mirroring the order in which the Python code calls `os.urandom`/`uuid4`;
  draws with distinct counters yield distinct values.
* `json.dumps(..., ensure_ascii=False, separators=(",", ":"))` and
  `json.loads` are modelled at character granularity (the UTF-8
  encode/decode pair, a bijection on the strings the code writes, is the
  identity on the character sequence).  The parser restricts `json.loads`
  to the grammar `to_bytes` emits: the fixed key order of the
  `FileEntry`/`KeyWrap` dataclasses, strings, decimal integers and `null`,
  with the full string-escape code of the serializer.
* Filesystem state is a record `FS`: the content of `vault.enc`, the map
  from blob paths to blob bytes, and the randomness counter.  Commands are
  functions `FS → result × FS`; a command that only reads returns its
  input state unchanged.
-/

/-- Python exception kinds distinguished by the vault code, following the
error table of the specification (§7). -/
inductive Err where
  | badMagic
  | unsupportedVersion
  | corruptVault
  | authFailure
  | corruptCatalog
  | corruptBlob
  | notFound
  | alreadyExists
  | ioFailure
deriving DecidableEq, Repr

/-- Byte strings (and Python `str` values) as lists of naturals. -/
abbrev Bytes := List Nat

/-- Character codes of a Lean string literal, used for the fixed ASCII
tokens of the JSON and header formats. -/
def chs (s : String) : Bytes := s.toList.map Char.toNat

/-- Injective encoding of a list of naturals into one natural, used by the
ideal cryptographic primitives to give keys and tags their symbolic
identity. -/
def encodeList : List Nat → Nat
  | [] => 0
  | x :: xs => Nat.pair x (encodeList xs) + 1

/-- Ideal output of `os.urandom` (and of the random part of `uuid.uuid4`)
for the draw with counter `c`: a fresh value of the requested length,
distinct from the value of every other draw.  Heads are odd so that random
byte strings never collide with derived master keys. -/
def rand (c len : Nat) : Bytes := (2 * c + 1) :: List.replicate (len - 1) 0

/-- Model of `derive_kmaster` (`crypto/hash.py`):
`Argon2id(SHA3-512(passphrase), salt, t, m, p) -> 32 bytes`, idealised as an
injective function of the passphrase, salt and KDF parameters. -/
def derive_kmaster (passphrase : Bytes) (salt : Bytes) (t m par : Nat) : Bytes :=
  0 :: encodeList passphrase :: encodeList salt :: t :: m :: par :: List.replicate 26 0

/-- The 16-cell GCM authentication tag of the ideal AEAD: it carries the
symbolic identity of the key and nonce, so that verification under any
other occurring key or nonce fails. -/
def tagOf (key nonce : Bytes) : Bytes :=
  8 :: encodeList (key.take 6) :: encodeList nonce :: List.replicate 13 0

/-- Keystream cell of the ideal AEAD, a function of key and nonce. -/
def ksOf (key nonce : Bytes) : Nat :=
  Nat.pair (encodeList (key.take 6)) (encodeList nonce)

/-- Model of `AESGCM(key).encrypt(nonce, plaintext, None)`: the plaintext
masked with the keystream, followed by the 16-cell tag. -/
def aesgcm_encrypt (key nonce pt : Bytes) : Bytes :=
  pt.map (fun x => x ^^^ ksOf key nonce) ++ tagOf key nonce

/-- Model of `AESGCM(key).decrypt(nonce, ct, None)`: verify the tag, then
unmask; `InvalidTag` is `Err.authFailure`. -/
def aesgcm_decrypt (key nonce data : Bytes) : Except Err Bytes :=
  if data.length < 16 then .error .authFailure
  else if data.drop (data.length - 16) = tagOf key nonce then
    .ok ((data.take (data.length - 16)).map (fun x => x ^^^ ksOf key nonce))
  else .error .authFailure

/-- Embedding of `aead_encrypt` (`crypto/aead.py`): draw a fresh 12-byte
nonce (the draw counter `c` stands for the `os.urandom(12)` call) and
encrypt. -/
def aead_encrypt (c : Nat) (key pt : Bytes) : Bytes × Bytes :=
  (rand c 12, aesgcm_encrypt key (rand c 12) pt)

/-- Embedding of `aead_decrypt` (`crypto/aead.py`). -/
def aead_decrypt (key nonce ct : Bytes) : Except Err Bytes :=
  aesgcm_decrypt key nonce ct

/-- Model of `base64.b64encode(...).decode()`: an injective byte-to-text
codec; in this embedding text and bytes share one representation, so the
codec is the identity. -/
def b64encode (b : Bytes) : Bytes := b

/-- Model of `base64.b64decode`, the inverse of `b64encode`. -/
def b64decode (s : Bytes) : Bytes := s

/-- Model of `str(uuid.uuid4())` for the draw with counter `c`: a fresh
identifier string, distinct across draws. -/
def uuidStr (c : Nat) : Bytes := rand c 1

/-- Embedding of the `KeyWrap` dataclass (`utils/dataModels.py`); the two
fields hold the base64 text of the wrap nonce and ciphertext. -/
structure KeyWrap where
  nonce_b64 : Bytes
  ct_b64 : Bytes
deriving DecidableEq, Repr

/-- Embedding of the `FileEntry` dataclass (`utils/dataModels.py`), fields
in dataclass order. -/
structure FileEntry where
  id : Bytes
  name : Bytes
  blob : Bytes
  size : Int
  created_at : Bytes
  modified_at : Bytes
  mimetype : Option Bytes
  file_key_wrap : KeyWrap
deriving DecidableEq, Repr

/-- Embedding of the `InnerMetadata` dataclass (`utils/dataModels.py`). -/
structure InnerMetadata where
  version : Int
  files : List FileEntry
deriving DecidableEq, Repr

/-- Lowercase-hex digit character, as produced by Python's `'\u%04x' % i`
escape of control characters. -/
def hexDigit (d : Nat) : Nat := if d < 10 then 48 + d else 87 + d

/-- Escape of one character under
`json.dumps(..., ensure_ascii=False)`: `"` and `\` are backslash-escaped,
control characters get their short escape or `\u00XX`, everything else is
emitted verbatim. -/
def escChar (c : Nat) : Bytes :=
  if c = 34 then [92, 34]
  else if c = 92 then [92, 92]
  else if c < 32 then
    if c = 8 then [92, 98]
    else if c = 9 then [92, 116]
    else if c = 10 then [92, 110]
    else if c = 12 then [92, 102]
    else if c = 13 then [92, 114]
    else [92, 117, 48, 48, hexDigit (c / 16), hexDigit (c % 16)]
  else [c]

/-- JSON serialization of a string value. -/
def serStr (s : Bytes) : Bytes := 34 :: s.flatMap escChar ++ [34]

/-- Decimal digits of `n`, least significant first, by fuel-bounded
structural recursion (so that it reduces definitionally). -/
def natDigitsRev (fuel n : Nat) : List Nat :=
  match fuel with
  | 0 => []
  | fuel + 1 => if n = 0 then [] else n % 10 :: natDigitsRev fuel (n / 10)

/-- Decimal text of a natural number, as printed by `json.dumps`. -/
def serNat (n : Nat) : Bytes :=
  if n = 0 then [48] else ((natDigitsRev n n).reverse.map (fun d => d + 48))

/-- Decimal text of an integer, as printed by `json.dumps`. -/
def serInt : Int → Bytes
  | .ofNat n => serNat n
  | .negSucc n => 45 :: serNat (n + 1)

/-- JSON text of a `KeyWrap`, with the key order of `KeyWrap.to_dict`. -/
def serKeyWrap (w : KeyWrap) : Bytes :=
  chs "\x7b\"nonce\":" ++ serStr w.nonce_b64 ++ chs ",\"ct\":" ++ serStr w.ct_b64 ++ chs "\x7d"

/-- JSON text of the optional `mimetype` field (`null` when absent). -/
def serMime : Option Bytes → Bytes
  | none => chs "null"
  | some s => serStr s

/-- JSON text of a `FileEntry`, with the dataclass key order used by
`asdict` in `FileEntry.to_dict`. -/
def serEntry (e : FileEntry) : Bytes :=
  chs "\x7b\"id\":" ++ serStr e.id
    ++ chs ",\"name\":" ++ serStr e.name
    ++ chs ",\"blob\":" ++ serStr e.blob
    ++ chs ",\"size\":" ++ serInt e.size
    ++ chs ",\"created_at\":" ++ serStr e.created_at
    ++ chs ",\"modified_at\":" ++ serStr e.modified_at
    ++ chs ",\"mimetype\":" ++ serMime e.mimetype
    ++ chs ",\"file_key_wrap\":" ++ serKeyWrap e.file_key_wrap
    ++ chs "\x7d"

/-- JSON text of the `files` array body (entries joined by commas). -/
def serFiles : List FileEntry → Bytes
  | [] => []
  | [e] => serEntry e
  | e :: rest => serEntry e ++ 44 :: serFiles rest

/-- Embedding of `InnerMetadata.to_bytes`:
`json.dumps({"version": ..., "files": ...}, ensure_ascii=False,
separators=(",", ":")).encode("utf-8")`. -/
def InnerMetadata.to_bytes (i : InnerMetadata) : Bytes :=
  chs "\x7b\"version\":" ++ serInt i.version ++ chs ",\"files\":[" ++ serFiles i.files ++ chs "]\x7d"

/-- Value of a hexadecimal digit character, as accepted by the JSON
string-escape decoder. -/
def hexVal (c : Nat) : Option Nat :=
  if 48 ≤ c ∧ c ≤ 57 then some (c - 48)
  else if 97 ≤ c ∧ c ≤ 102 then some (c - 87)
  else if 65 ≤ c ∧ c ≤ 70 then some (c - 55)
  else none

/-- Prepend a character to the string being decoded. -/
def consChar (c : Nat) : Option (Bytes × Bytes) → Option (Bytes × Bytes) :=
  Option.map (fun p => (c :: p.1, p.2))

/-- Fuel-bounded worker of the JSON string-body decoder (structural
recursion on the fuel, so that it reduces definitionally). -/
def parseStrBodyF (fuel : Nat) (b : Bytes) : Option (Bytes × Bytes) :=
  match fuel with
  | 0 => none
  | fuel + 1 =>
    match b with
    | [] => none
    | c :: rest =>
      if c = 34 then some ([], rest)
      else if c = 92 then
        match rest with
        | [] => none
        | e :: rest2 =>
          if e = 34 then consChar 34 (parseStrBodyF fuel rest2)
          else if e = 92 then consChar 92 (parseStrBodyF fuel rest2)
          else if e = 47 then consChar 47 (parseStrBodyF fuel rest2)
          else if e = 98 then consChar 8 (parseStrBodyF fuel rest2)
          else if e = 102 then consChar 12 (parseStrBodyF fuel rest2)
          else if e = 110 then consChar 10 (parseStrBodyF fuel rest2)
          else if e = 114 then consChar 13 (parseStrBodyF fuel rest2)
          else if e = 116 then consChar 9 (parseStrBodyF fuel rest2)
          else if e = 117 then
            match rest2 with
            | h1 :: h2 :: h3 :: h4 :: rest3 =>
              match hexVal h1, hexVal h2, hexVal h3, hexVal h4 with
              | some d1, some d2, some d3, some d4 =>
                consChar (d1 * 4096 + d2 * 256 + d3 * 16 + d4) (parseStrBodyF fuel rest3)
              | _, _, _, _ => none
            | _ => none
          else none
      else consChar c (parseStrBodyF fuel rest)

/-- Decoder of a JSON string body up to the closing quote, with the escape
code of `json.loads` (short escapes and `\uXXXX`); the fuel of the bounded
recursion is the input length, enough for the one-or-more input characters
consumed per decoded character. -/
def parseStrBody (b : Bytes) : Option (Bytes × Bytes) := parseStrBodyF (b.length + 1) b

/-- Decoder of a JSON string value (leading quote then body). -/
def parseStr : Bytes → Option (Bytes × Bytes)
  | [] => none
  | c :: rest => if c = 34 then parseStrBody rest else none

/-- Longest prefix of decimal digit characters, returned as digit values
most significant first, together with the rest of the input. -/
def spanDigits : Bytes → List Nat × Bytes
  | [] => ([], [])
  | c :: rest =>
    if 48 ≤ c ∧ c ≤ 57 then
      let p := spanDigits rest
      ((c - 48) :: p.1, p.2)
    else ([], c :: rest)

/-- Decoder of an unsigned decimal integer. -/
def parseNatNum (b : Bytes) : Option (Nat × Bytes) :=
  let p := spanDigits b
  if p.1 = [] then none else some (Nat.ofDigits 10 p.1.reverse, p.2)

/-- Decoder of a JSON integer (optional minus sign, then digits). -/
def parseIntNum : Bytes → Option (Int × Bytes)
  | [] => none
  | c :: rest =>
    if c = 45 then
      (parseNatNum rest).map (fun p => (-(p.1 : Int), p.2))
    else
      (parseNatNum (c :: rest)).map (fun p => ((p.1 : Int), p.2))

/-- Strip an expected literal token from the front of the input. -/
def stripTok : Bytes → Bytes → Option Bytes
  | [], input => some input
  | _ :: _, [] => none
  | p :: ps, c :: cs => if p = c then stripTok ps cs else none

/-- Decoder of the `mimetype` field value: `null` or a string. -/
def parseMime (b : Bytes) : Option (Option Bytes × Bytes) :=
  match b with
  | 34 :: rest => (parseStrBody rest).map (fun p => (some p.1, p.2))
  | _ => (stripTok (chs "null") b).map (fun r => (none, r))

/-- Decoder of one file-entry object, with the key order emitted by
`FileEntry.to_dict`. -/
def parseEntry (b : Bytes) : Option (FileEntry × Bytes) :=
  match stripTok (chs "\x7b\"id\":") b with
  | none => none
  | some r1 =>
  match parseStr r1 with
  | none => none
  | some (vid, r2) =>
  match stripTok (chs ",\"name\":") r2 with
  | none => none
  | some r3 =>
  match parseStr r3 with
  | none => none
  | some (vname, r4) =>
  match stripTok (chs ",\"blob\":") r4 with
  | none => none
  | some r5 =>
  match parseStr r5 with
  | none => none
  | some (vblob, r6) =>
  match stripTok (chs ",\"size\":") r6 with
  | none => none
  | some r7 =>
  match parseIntNum r7 with
  | none => none
  | some (vsize, r8) =>
  match stripTok (chs ",\"created_at\":") r8 with
  | none => none
  | some r9 =>
  match parseStr r9 with
  | none => none
  | some (vca, r10) =>
  match stripTok (chs ",\"modified_at\":") r10 with
  | none => none
  | some r11 =>
  match parseStr r11 with
  | none => none
  | some (vma, r12) =>
  match stripTok (chs ",\"mimetype\":") r12 with
  | none => none
  | some r13 =>
  match parseMime r13 with
  | none => none
  | some (vmime, r14) =>
  match stripTok (chs ",\"file_key_wrap\":\x7b\"nonce\":") r14 with
  | none => none
  | some r15 =>
  match parseStr r15 with
  | none => none
  | some (vwn, r16) =>
  match stripTok (chs ",\"ct\":") r16 with
  | none => none
  | some r17 =>
  match parseStr r17 with
  | none => none
  | some (vwc, r18) =>
  match stripTok (chs "\x7d\x7d") r18 with
  | none => none
  | some r19 =>
  some (FileEntry.mk vid vname vblob vsize vca vma vmime (KeyWrap.mk vwn vwc), r19)

/-- Decoder of a non-empty comma-separated entry sequence up to and
including the closing bracket; `fuel` bounds the number of entries. -/
def parseEntriesGo (fuel : Nat) (b : Bytes) : Option (List FileEntry × Bytes) :=
  match fuel with
  | 0 => none
  | fuel + 1 =>
    match parseEntry b with
    | none => none
    | some (e, r) =>
      match r with
      | 44 :: r2 =>
        match parseEntriesGo fuel r2 with
        | none => none
        | some (es, r3) => some (e :: es, r3)
      | 93 :: r2 => some ([e], r2)
      | _ => none

/-- Decoder of the `files` array content after the opening bracket, up to
and including the closing bracket. -/
def parseEntriesTop (fuel : Nat) (b : Bytes) : Option (List FileEntry × Bytes) :=
  match b with
  | 93 :: rest => some ([], rest)
  | _ => parseEntriesGo fuel b

/-- Embedding of `InnerMetadata.from_bytes`: `json.loads` restricted to the
document grammar `to_bytes` emits, failing with `CorruptCatalog` on
malformed input (the raised `json.JSONDecodeError`). -/
def InnerMetadata.from_bytes (b : Bytes) : Except Err InnerMetadata :=
  match stripTok (chs "\x7b\"version\":") b with
  | none => .error .corruptCatalog
  | some r1 =>
  match parseIntNum r1 with
  | none => .error .corruptCatalog
  | some (v, r2) =>
  match stripTok (chs ",\"files\":[") r2 with
  | none => .error .corruptCatalog
  | some r3 =>
  match parseEntriesTop b.length r3 with
  | none => .error .corruptCatalog
  | some (fs, r4) =>
  match stripTok (chs "\x7d") r4 with
  | none => .error .corruptCatalog
  | some r5 =>
  if r5 = [] then .ok (InnerMetadata.mk v fs) else .error .corruptCatalog

/-- Embedding of `VAULT_MAGIC = b"EFS1"` (`utils/dataModels.py`). -/
def VAULT_MAGIC : Bytes := chs "EFS1"

/-- Embedding of `VAULT_VERSION = 1` (`utils/dataModels.py`). -/
def VAULT_VERSION : Nat := 1

/-- Embedding of `VAULT_HDR_SIZE = struct.calcsize(">4sBIII16s12s")`
(`utils/dataModels.py`): magic (4s) + version (B) + three u32 (III) +
salt (16s) + nonce (12s), big-endian, no padding. -/
def VAULT_HDR_SIZE : Nat := 4 + 1 + (4 + 4 + 4) + 16 + 12

/-- Big-endian 4-byte encoding of a 32-bit value, as packed by `>I`. -/
def u32be (n : Nat) : Bytes :=
  [n / 16777216 % 256, n / 65536 % 256, n / 256 % 256, n % 256]

/-- Value of the first four bytes of the input, read big-endian (`>I`). -/
def readU32 : Bytes → Nat
  | b0 :: b1 :: b2 :: b3 :: _ => b0 * 16777216 + b1 * 65536 + b2 * 256 + b3
  | _ => 0

/-- Embedding of `save_vault` (`storage/vault.py`): the bytes of the packed
header followed by the catalog ciphertext.  The write-to-temporary-then-
`os.replace` protocol is modelled by replacing the vault content of the
state atomically with this value. -/
def save_vault (t m p : Nat) (salt nonce ct : Bytes) : Bytes :=
  VAULT_MAGIC ++ VAULT_VERSION :: (u32be t ++ (u32be m ++ (u32be p ++ (salt ++ (nonce ++ ct)))))

/-- Embedding of `load_vault` (`storage/vault.py`): size, magic and version
checks, then header-field extraction. -/
def load_vault (data : Bytes) : Except Err (Nat × Nat × Nat × Bytes × Bytes × Bytes) :=
  if data.length < VAULT_HDR_SIZE then .error .corruptVault
  else if data.take 4 ≠ VAULT_MAGIC then .error .badMagic
  else if (data.drop 4).take 1 ≠ [VAULT_VERSION] then .error .unsupportedVersion
  else .ok (readU32 (data.drop 5), readU32 (data.drop 9), readU32 (data.drop 13),
    (data.drop 17).take 16, (data.drop 33).take 12, data.drop VAULT_HDR_SIZE)

/-- Embedding of `DEFAULT_T_COST` (`utils/dataModels.py`). -/
def DEFAULT_T_COST : Nat := 4

/-- Embedding of `DEFAULT_M_COST_KiB` (`utils/dataModels.py`). -/
def DEFAULT_M_COST_KiB : Nat := 262144

/-- Embedding of `DEFAULT_PARALLELISM` (`utils/dataModels.py`). -/
def DEFAULT_PARALLELISM : Nat := 2

/-- The repository state: content of `vault.enc` (if present), the map from
blob paths (relative to the repository, e.g. `blobs/<id>.bin`) to blob file
contents, and the randomness draw counter. -/
structure FS where
  vault : Option Bytes
  blobs : List (Bytes × Bytes)
  ctr : Nat
deriving DecidableEq, Repr

/-- Write a blob file: replace the content at the path if present,
otherwise create it. -/
def setBlob : List (Bytes × Bytes) → Bytes → Bytes → List (Bytes × Bytes)
  | [], k, v => [(k, v)]
  | (k0, v0) :: rest, k, v =>
    if k0 = k then (k, v) :: rest else (k0, v0) :: setBlob rest k v

/-- Read a blob file by path. -/
def getBlob : List (Bytes × Bytes) → Bytes → Option Bytes
  | [], _ => none
  | (k0, v0) :: rest, k => if k0 = k then some v0 else getBlob rest k

/-- Delete a blob file by path (`Path.unlink` with `FileNotFoundError`
ignored: deleting a missing path is a no-op). -/
def delBlob (l : List (Bytes × Bytes)) (k : Bytes) : List (Bytes × Bytes) :=
  l.filter (fun e => e.1 ≠ k)

/-- The KDF parameters echoed by `unlock` so callers can re-encrypt without
a second derivation (the `{"t": t, "m": m, "p": paral, "salt": salt}`
dictionary of `utils/core.py`). -/
structure Kdf where
  t : Nat
  m : Nat
  p : Nat
  salt : Bytes
deriving DecidableEq, Repr

/-- Embedding of `unlock` (`utils/core.py`): read `vault.enc`
(`FileNotFoundError` is `Err.ioFailure`), parse the header, derive the
master key, decrypt and deserialize the inner catalog.  The function only
reads the repository: it takes the state and returns a value. -/
def unlock (fs : FS) (passphrase : Bytes) : Except Err (InnerMetadata × Bytes × Kdf) :=
  match fs.vault with
  | none => .error .ioFailure
  | some data =>
    match load_vault data with
    | .error e => .error e
    | .ok (t, m, par, salt, nonce, ct) =>
      match aead_decrypt (derive_kmaster passphrase salt t m par) nonce ct with
      | .error e => .error e
      | .ok inner_bytes =>
        match InnerMetadata.from_bytes inner_bytes with
        | .error e => .error e
        | .ok inner => .ok (inner, derive_kmaster passphrase salt t m par, Kdf.mk t m par salt)

/-- State-transformer form of `unlock`: the result together with the
repository state, which `unlock` leaves unchanged (its only filesystem
access is the read in `load_vault`). -/
def unlockS (fs : FS) (passphrase : Bytes) :
    Except Err (InnerMetadata × Bytes × Kdf) × FS :=
  (unlock fs passphrase, fs)

/-- Embedding of `cmd_init` (`utils/core.py`): refuse to overwrite an
existing `vault.enc` without `--force`; otherwise draw a fresh salt, derive
the master key, encrypt an empty inner catalog (`version=1, files=[]`) and
write the vault. -/
def cmd_init (fs : FS) (passphrase : Bytes) (t m par : Nat) (force : Bool) :
    Except Err Unit × FS :=
  if fs.vault.isSome ∧ force = false then (.error .alreadyExists, fs)
  else
    let salt := rand fs.ctr 16
    let kmaster := derive_kmaster passphrase salt t m par
    let inner_bytes := (InnerMetadata.mk 1 []).to_bytes
    let nc := aead_encrypt (fs.ctr + 1) kmaster inner_bytes
    (.ok (), FS.mk (some (save_vault t m par salt nc.1 nc.2)) fs.blobs (fs.ctr + 2))

/-- Path `blobs/<fid>.bin` of the blob for file id `fid`. -/
def blobPath (fid : Bytes) : Bytes := chs "blobs/" ++ fid ++ chs ".bin"

/-- Embedding of `cmd_add` (`utils/core.py`): unlock; generate a per-file
key; encrypt the source bytes under a fresh nonce; write the blob
`nonce || ct` under a fresh uuid; wrap the file key under the master key;
append the new entry (timestamps come from the source file's `ctime` and
`mtime`); re-encrypt the inner catalog and save the vault under the
unchanged header parameters.  Returns the new entry's id. -/
def cmd_add (fs : FS) (passphrase : Bytes) (srcName content : Bytes)
    (ctime mtime : Bytes) : Except Err Bytes × FS :=
  match unlock fs passphrase with
  | .error e => (.error e, fs)
  | .ok (inner, kmaster, kdf) =>
    let file_key := rand fs.ctr 32
    let file_nonce := rand (fs.ctr + 1) 12
    let file_ct := aesgcm_encrypt file_key file_nonce content
    let fid := uuidStr (fs.ctr + 2)
    let blobs2 := setBlob fs.blobs (blobPath fid) (file_nonce ++ file_ct)
    let wrap := aead_encrypt (fs.ctr + 3) kmaster file_key
    let keywrap := KeyWrap.mk (b64encode wrap.1) (b64encode wrap.2)
    let entry := FileEntry.mk fid srcName (blobPath fid) (Int.ofNat content.length)
      ctime mtime none keywrap
    let inner2 := InnerMetadata.mk inner.version (inner.files ++ [entry])
    let nc := aead_encrypt (fs.ctr + 4) kmaster inner2.to_bytes
    (.ok fid,
      FS.mk (some (save_vault kdf.t kdf.m kdf.p kdf.salt nc.1 nc.2)) blobs2 (fs.ctr + 5))

/-- Embedding of `cmd_extract` (`utils/core.py`): unlock; locate the entry
by id (first match, else `NotFound`); unwrap the per-file key from the
base64 wrap fields; read the blob; fail `CorruptBlob` when
`len(blob) < 13`; split `nonce || ct` at 12 and AEAD-decrypt.  The
plaintext written to the output path (outside the repository) is returned;
the repository itself is only read. -/
def cmd_extract (fs : FS) (passphrase : Bytes) (fid : Bytes) : Except Err Bytes × FS :=
  (match unlock fs passphrase with
  | .error e => .error e
  | .ok (inner, kmaster, _) =>
    match inner.files.find? (fun f => f.id == fid) with
    | none => .error .notFound
    | some m =>
      match aead_decrypt kmaster (b64decode m.file_key_wrap.nonce_b64)
          (b64decode m.file_key_wrap.ct_b64) with
      | .error e => .error e
      | .ok file_key =>
        match getBlob fs.blobs m.blob with
        | none => .error .ioFailure
        | some blob =>
          if blob.length < 13 then .error .corruptBlob
          else aesgcm_decrypt file_key (blob.take 12) (blob.drop 12), fs)

/-- Replace the first element satisfying the predicate (Python's
`next(f for f in files if ...)` followed by in-place mutation of the
matched dictionary). -/
def updateFirst (p : FileEntry → Bool) (g : FileEntry → FileEntry) :
    List FileEntry → List FileEntry
  | [] => []
  | x :: xs => if p x then g x :: xs else x :: updateFirst p g xs

/-- Embedding of `update_file_in_vault` (`utils/core.py`): unlock; locate
the entry (first match, else the raised `ValueError` = `NotFound`);
generate a new per-file key and nonce; overwrite `blobs/<fid>.bin` with the
new `nonce || ct`; rewrap the new key under the master key; update `size`
and `file_key_wrap` of the matched entry in place; re-encrypt the loaded
inner catalog (its `version` unchanged) and save under the unchanged
header parameters. -/
def update_file_in_vault (fs : FS) (fid : Bytes) (newContent : Bytes)
    (passphrase : Bytes) : Except Err Unit × FS :=
  match unlock fs passphrase with
  | .error e => (.error e, fs)
  | .ok (inner, kmaster, kdf) =>
    match inner.files.find? (fun f => f.id == fid) with
    | none => (.error .notFound, fs)
    | some _ =>
      let file_key := rand fs.ctr 32
      let file_nonce := rand (fs.ctr + 1) 12
      let file_ct := aesgcm_encrypt file_key file_nonce newContent
      let blobs2 := setBlob fs.blobs (blobPath fid) (file_nonce ++ file_ct)
      let wrap := aead_encrypt (fs.ctr + 2) kmaster file_key
      let keywrap := KeyWrap.mk (b64encode wrap.1) (b64encode wrap.2)
      let files2 := updateFirst (fun f => f.id == fid)
        (fun f => { f with size := Int.ofNat newContent.length, file_key_wrap := keywrap })
        inner.files
      let inner2 := InnerMetadata.mk inner.version files2
      let nc := aead_encrypt (fs.ctr + 3) kmaster inner2.to_bytes
      (.ok (),
        FS.mk (some (save_vault kdf.t kdf.m kdf.p kdf.salt nc.1 nc.2)) blobs2 (fs.ctr + 4))

/-- Embedding of `cmd_rm` (`utils/maintain.py`): unlock; locate the entry
(else `NotFound`); delete its blob (missing blob ignored); drop every entry
with the id from the catalog; re-derive the master key; re-encrypt a
rebuilt inner catalog with `version=1` and save. -/
def cmd_rm (fs : FS) (passphrase : Bytes) (fid : Bytes) : Except Err Unit × FS :=
  match unlock fs passphrase with
  | .error e => (.error e, fs)
  | .ok (inner, _, kdf) =>
    match inner.files.find? (fun f => f.id == fid) with
    | none => (.error .notFound, fs)
    | some m =>
      let blobs2 := delBlob fs.blobs m.blob
      let files2 := inner.files.filter (fun f => f.id ≠ fid)
      let kmaster := derive_kmaster passphrase kdf.salt kdf.t kdf.m kdf.p
      let nc := aead_encrypt fs.ctr kmaster (InnerMetadata.mk 1 files2).to_bytes
      (.ok (),
        FS.mk (some (save_vault kdf.t kdf.m kdf.p kdf.salt nc.1 nc.2)) blobs2 (fs.ctr + 1))

/-- Embedding of `cmd_rename` (`utils/maintain.py`): unlock; locate the
entry (else `NotFound`); change its `name` in place; re-derive the master
key; re-encrypt a rebuilt inner catalog with `version=1` and save.  Blobs
are untouched. -/
def cmd_rename (fs : FS) (passphrase : Bytes) (fid newName : Bytes) :
    Except Err Unit × FS :=
  match unlock fs passphrase with
  | .error e => (.error e, fs)
  | .ok (inner, _, kdf) =>
    match inner.files.find? (fun f => f.id == fid) with
    | none => (.error .notFound, fs)
    | some _ =>
      let files2 := updateFirst (fun f => f.id == fid)
        (fun f => { f with name := newName }) inner.files
      let kmaster := derive_kmaster passphrase kdf.salt kdf.t kdf.m kdf.p
      let nc := aead_encrypt fs.ctr kmaster (InnerMetadata.mk 1 files2).to_bytes
      (.ok (),
        FS.mk (some (save_vault kdf.t kdf.m kdf.p kdf.salt nc.1 nc.2)) fs.blobs (fs.ctr + 1))

/-- The rewrap loop of `cmd_rotate_master`: unwrap each entry's file key
with the old master key and rewrap it under the new one, each rewrap
drawing a fresh nonce (counters `c`, `c+1`, ...). -/
def rewrapAll (old_km new_km : Bytes) (c : Nat) :
    List FileEntry → Except Err (List FileEntry)
  | [] => .ok []
  | f :: rest =>
    let restRes := rewrapAll old_km new_km (c + 1) rest
    match aead_decrypt old_km (b64decode f.file_key_wrap.nonce_b64)
        (b64decode f.file_key_wrap.ct_b64) with
    | .error e => .error e
    | .ok file_key =>
      let w := aead_encrypt c new_km file_key
      match restRes with
      | .error e => .error e
      | .ok rest2 =>
        .ok ({ f with file_key_wrap := KeyWrap.mk (b64encode w.1) (b64encode w.2) } :: rest2)

/-- Embedding of `cmd_rotate_master` (`utils/maintain.py`): unlock under
the old passphrase; take new KDF parameters where provided, else the
current ones; draw a fresh salt; derive the new master key from
`args.new_passphrase or args.passphrase` — Python's `or` falls back to the
current passphrase when the new one is absent *or empty*; rewrap every
file key; re-encrypt a rebuilt inner catalog with `version=1` under the
new master key and save with the new header parameters.  Blobs are not
touched.  A failure while rewrapping propagates before anything is saved. -/
def cmd_rotate_master (fs : FS) (passphrase : Bytes) (newPassphrase : Option Bytes)
    (newT newM newP : Option Nat) : Except Err Unit × FS :=
  match unlock fs passphrase with
  | .error e => (.error e, fs)
  | .ok (inner, old_km, kdf) =>
    let t2 := newT.getD kdf.t
    let m2 := newM.getD kdf.m
    let p2 := newP.getD kdf.p
    let new_salt := rand fs.ctr 16
    let effPass := match newPassphrase with
      | none => passphrase
      | some s => if s = [] then passphrase else s
    let new_km := derive_kmaster effPass new_salt t2 m2 p2
    match rewrapAll old_km new_km (fs.ctr + 1) inner.files with
    | .error e => (.error e, fs)
    | .ok files2 =>
      let nc := aead_encrypt (fs.ctr + 1 + inner.files.length) new_km
        (InnerMetadata.mk 1 files2).to_bytes
      (.ok (),
        FS.mk (some (save_vault t2 m2 p2 new_salt nc.1 nc.2)) fs.blobs
          (fs.ctr + 2 + inner.files.length))

/-- One task of the GUI folder-add: source leaf name, content, and the
source timestamps. -/
structure AddTask where
  name : Bytes
  content : Bytes
  ctime : Bytes
  mtime : Bytes
deriving DecidableEq, Repr

/-- Modelled from the spec: `prepare_file_add` is imported by the GUI from
`utils.core` but absent from the source tree.  Per §4.6 a worker task
performs "read source, allocate id, generate per-file key, encrypt to blob
file, produce in-memory wrap and entry" without touching the catalog.  The
result is the new entry together with the blob path and blob bytes it
wrote; the task uses draws `c..c+3`. -/
def prepare_file_add (km : Bytes) (c : Nat) (task : AddTask) :
    FileEntry × Bytes × Bytes :=
  let file_key := rand c 32
  let file_nonce := rand (c + 1) 12
  let file_ct := aesgcm_encrypt file_key file_nonce task.content
  let fid := uuidStr (c + 2)
  let wrap := aead_encrypt (c + 3) km file_key
  (FileEntry.mk fid task.name (blobPath fid) (Int.ofNat task.content.length)
      task.ctime task.mtime none (KeyWrap.mk (b64encode wrap.1) (b64encode wrap.2)),
    blobPath fid, file_nonce ++ file_ct)

/-- The worker pool of `add_folder`
(`ui/gui_components/file_operations.py`): every submitted task runs to
completion and writes its blob (the executor's context exit waits for all
futures even when the progress dialog was cancelled); entries are
collected in completion order, which this embedding takes to be the order
of the task list.  Returns the entries, the blob store after all writes,
and the next draw counter. -/
def runTasks (km : Bytes) (c : Nat) (blobs : List (Bytes × Bytes)) :
    List AddTask → List FileEntry × List (Bytes × Bytes) × Nat
  | [] => ([], blobs, c)
  | t :: rest =>
    let r := prepare_file_add km c t
    let rec2 := runTasks km (c + 4) (setBlob blobs r.2.1 r.2.2) rest
    (r.1 :: rec2.1, rec2.2.1, rec2.2.2)

/-- Embedding of the commit phase of `add_folder`
(`ui/gui_components/file_operations.py`): unlock once; run all tasks; if
the user cancelled, return without writing the catalog (blobs written by
the workers remain); otherwise append all successful entries to the
in-memory catalog in completion order, re-encrypt it with a fresh nonce
and save the vault once. -/
def add_folder (fs : FS) (passphrase : Bytes) (tasks : List AddTask)
    (cancelled : Bool) : Option (List FileEntry) × FS :=
  match unlock fs passphrase with
  | .error _ => (none, fs)
  | .ok (inner, kmaster, kdf) =>
    let r := runTasks kmaster fs.ctr fs.blobs tasks
    if cancelled then
      (none, FS.mk fs.vault r.2.1 r.2.2)
    else
      let inner2 := InnerMetadata.mk inner.version (inner.files ++ r.1)
      let nc := aead_encrypt r.2.2 kmaster inner2.to_bytes
      (some r.1,
        FS.mk (some (save_vault kdf.t kdf.m kdf.p kdf.salt nc.1 nc.2)) r.2.1 (r.2.2 + 1))

/-- Whether the input does not begin with a decimal digit character (used
to delimit integer parsing). -/
def noDigitHead : Bytes → Bool
  | [] => true
  | c :: _ => !(decide (48 ≤ c) && decide (c ≤ 57))

/-- A sample key wrap used by concrete witness repositories. -/
def sampleWrap : KeyWrap := KeyWrap.mk (chs "bm9uY2U=") (chs "Y3Q=")

/-- A sample file entry used by concrete witness catalogs. -/
def sampleEntry : FileEntry :=
  FileEntry.mk (chs "a") (chs "f.txt") (chs "blobs/a.bin") 5
    (chs "2024-01-01T00:00:00Z") (chs "2024-01-01T00:00:00Z") none sampleWrap

/-- A concrete repository for the C4 counterexample: initialize with
passphrase `[1]` at the default KDF parameters, add a one-byte file, then
corrupt the stored blob by replacing it with 20 zero bytes (length between
13 and 27: past the code's `len(blob) < 13` check but shorter than
`12 + tag_size = 28`). -/
def tamperedRepo : FS :=
  let fs1 := (cmd_init (FS.mk none [] 0) [1] 4 262144 2 false).2
  let fs2 := (cmd_add fs1 [1] (chs "f") [7] (chs "T") (chs "T")).2
  FS.mk fs2.vault (setBlob fs2.blobs (blobPath (uuidStr 4)) (List.replicate 20 0)) fs2.ctr

/-- Master key of the concrete witness repository: derived from passphrase
`[1]`, the salt of draw 0, and the default KDF parameters. -/
def kmW : Bytes := derive_kmaster [1] (rand 0 16) 4 262144 2

/-- A file entry of the concrete witness repository whose wrap decrypts
under `kmW` to the file key of draw 3. -/
def entryW : FileEntry :=
  FileEntry.mk (chs "a") (chs "f") (chs "blobs/a.bin") 1 (chs "T") (chs "T") none
    (KeyWrap.mk (b64encode (rand 2 12))
      (b64encode (aesgcm_encrypt kmW (rand 2 12) (rand 3 32))))

/-- The inner catalog of the concrete witness repository. -/
def innerW : InnerMetadata := InnerMetadata.mk 1 [entryW]

/-- A concrete witness repository holding `innerW` encrypted under `kmW`,
with a 5-byte (truncated) blob for its single entry. -/
def repoW : FS :=
  FS.mk (some (save_vault 4 262144 2 (rand 0 16) (rand 1 12)
      (aesgcm_encrypt kmW (rand 1 12) innerW.to_bytes)))
    [(chs "blobs/a.bin", List.replicate 5 0)] 4

/-- Master key of a repository initialised from the empty state with the
given passphrase at the default KDF parameters (salt of draw 0). -/
def kmOf (p : Bytes) : Bytes :=
  derive_kmaster p (rand 0 16) DEFAULT_T_COST DEFAULT_M_COST_KiB DEFAULT_PARALLELISM

/-- The entry `cmd_add` appends when run on the freshly initialised
repository (draws 2..5: file key, file nonce, uuid, wrap nonce). -/
def addedEntry (p name content ctime mtime : Bytes) : FileEntry :=
  FileEntry.mk (uuidStr 4) name (blobPath (uuidStr 4)) (Int.ofNat content.length)
    ctime mtime none
    (KeyWrap.mk (b64encode (rand 5 12))
      (b64encode (aesgcm_encrypt (kmOf p) (rand 5 12) (rand 2 32))))

/-- A witness catalog carrying the non-default schema version 7, to
separate the operations that rebuild the catalog with `version=1` from
those that re-serialize the loaded version. -/
def innerV7 : InnerMetadata := InnerMetadata.mk 7 [entryW]

/-- A witness repository holding `innerV7` encrypted under `kmW`. -/
def repoV7 : FS :=
  FS.mk (some (save_vault 4 262144 2 (rand 0 16) (rand 1 12)
      (aesgcm_encrypt kmW (rand 1 12) innerV7.to_bytes))) [] 4

/-- The symbolic list encoding is injective. -/
theorem encodeList_inj : ∀ {a b : List Nat}, encodeList a = encodeList b → a = b := by
  intro a
  induction a with
  | nil =>
    intro b h
    cases b with
    | nil => rfl
    | cons y ys => simp [encodeList] at h
  | cons x xs ih =>
    intro b h
    cases b with
    | nil => simp [encodeList] at h
    | cons y ys =>
      simp only [encodeList, Nat.add_right_cancel_iff] at h
      obtain ⟨h1, h2⟩ := Nat.pair_eq_pair.mp h
      rw [h1, ih h2]

/-- Length of an `os.urandom` draw. -/
theorem rand_length (c len : Nat) (h : 1 ≤ len) : (rand c len).length = len := by
  simp [rand]
  omega

/-- Distinct draws yield distinct values. -/
theorem rand_inj {c c2 len len2 : Nat} (h : rand c len = rand c2 len2) : c = c2 := by
  simp [rand] at h
  omega

/-- Two ideal GCM tags agree exactly when the identifying key cells and the
nonce agree. -/
theorem tagOf_eq_iff {k n k2 n2 : Bytes} :
    tagOf k n = tagOf k2 n2 ↔ k.take 6 = k2.take 6 ∧ n = n2 := by
  constructor
  · intro h
    simp only [tagOf, List.cons.injEq] at h
    exact ⟨encodeList_inj h.2.1, encodeList_inj h.2.2.1⟩
  · intro h
    simp [tagOf, h.1, h.2]

/-- The identifying cells of a derived master key. -/
theorem derive_take6 (pass salt : Bytes) (t m par : Nat) :
    (derive_kmaster pass salt t m par).take 6 =
      [0, encodeList pass, encodeList salt, t, m, par] := by
  simp [derive_kmaster]

/-- The identifying cells of a random 32-byte file key. -/
theorem rand32_take6 (c : Nat) :
    (rand c 32).take 6 = [2 * c + 1, 0, 0, 0, 0, 0] := by
  simp [rand, List.take_replicate]

/-- The ideal GCM tag is 16 cells long. -/
theorem tagOf_length (k n : Bytes) : (tagOf k n).length = 16 := by
  simp [tagOf]

/-- Masking with the keystream is an involution. -/
theorem unmask_mask (l : List Nat) (s : Nat) :
    (l.map (fun x => x ^^^ s)).map (fun x => x ^^^ s) = l := by
  induction l with
  | nil => rfl
  | cons x xs ih => simp [ih, Nat.xor_cancel_right]

/-- AEAD decryption inverts encryption under the same key and nonce. -/
theorem aesgcm_decrypt_encrypt (k n pt : Bytes) :
    aesgcm_decrypt k n (aesgcm_encrypt k n pt) = .ok pt := by
  unfold aesgcm_decrypt aesgcm_encrypt
  have hlen : (pt.map (fun x => x ^^^ ksOf k n) ++ tagOf k n).length = pt.length + 16 := by
    simp [tagOf]
  rw [hlen]
  have hmap : (pt.map (fun x => x ^^^ ksOf k n)).length = pt.length := by simp
  have hdrop : (pt.map (fun x => x ^^^ ksOf k n) ++ tagOf k n).drop (pt.length + 16 - 16) =
      tagOf k n := by
    simp only [Nat.add_sub_cancel]
    rw [← hmap, List.drop_left]
  have htake : (pt.map (fun x => x ^^^ ksOf k n) ++ tagOf k n).take (pt.length + 16 - 16) =
      pt.map (fun x => x ^^^ ksOf k n) := by
    simp only [Nat.add_sub_cancel]
    rw [← hmap, List.take_left]
  rw [if_neg (by omega), hdrop, if_pos rfl, htake, unmask_mask]

/-- AEAD decryption fails when the stored tag does not match the key and
nonce supplied for verification. -/
theorem aesgcm_decrypt_mismatch (k n k2 n2 pt : Bytes)
    (h : tagOf k2 n2 ≠ tagOf k n) :
    aesgcm_decrypt k n (aesgcm_encrypt k2 n2 pt) = .error .authFailure := by
  unfold aesgcm_decrypt aesgcm_encrypt
  have hlen : (pt.map (fun x => x ^^^ ksOf k2 n2) ++ tagOf k2 n2).length = pt.length + 16 := by
    simp [tagOf]
  rw [hlen]
  have hmap : (pt.map (fun x => x ^^^ ksOf k2 n2)).length = pt.length := by simp
  have hdrop : (pt.map (fun x => x ^^^ ksOf k2 n2) ++ tagOf k2 n2).drop (pt.length + 16 - 16) =
      tagOf k2 n2 := by
    simp only [Nat.add_sub_cancel]
    rw [← hmap, List.drop_left]
  rw [if_neg (by omega), hdrop, if_neg h]

/-- Stripping a token from an input beginning with that token succeeds and
returns the remainder. -/
theorem stripTok_append : ∀ (p r : Bytes), stripTok p (p ++ r) = some r := by
  intro p
  induction p with
  | nil => intro r; rfl
  | cons x xs ih => intro r; simp [stripTok, ih]

/-- `hexVal` inverts `hexDigit` on hex digit values. -/
theorem hexVal_hexDigit {d : Nat} (h : d < 16) : hexVal (hexDigit d) = some d := by
  by_cases hd : d < 10
  · rw [show hexDigit d = 48 + d from if_pos hd]
    unfold hexVal
    rw [if_pos (by omega)]
    congr 1
    omega
  · rw [show hexDigit d = 87 + d from if_neg hd]
    unfold hexVal
    rw [if_neg (by omega), if_pos (by omega)]
    congr 1
    omega

/-- Each serialized character occupies at least one output character. -/
theorem length_le_flatMap_escChar (s : Bytes) : s.length ≤ (s.flatMap escChar).length := by
  induction s with
  | nil => simp
  | cons c cs ih =>
    have h1 : 1 ≤ (escChar c).length := by
      unfold escChar
      repeat' split
      all_goals simp
    simp only [List.flatMap_cons, List.length_append, List.length_cons]
    omega

/-- The fuel-bounded string-body decoder inverts the serializer's character
escaping up to the closing quote, given fuel above the number of decoded
characters. -/
theorem parseStrBodyF_ser : ∀ (s : Bytes) (fuel : Nat) (r : Bytes), s.length < fuel →
    parseStrBodyF fuel (s.flatMap escChar ++ 34 :: r) = some (s, r) := by
  intro s
  induction s with
  | nil =>
    intro fuel r h
    match fuel, h with
    | fuel + 1, _ => simp [parseStrBodyF]
  | cons c cs ih =>
    intro fuel r h
    match fuel, h with
    | fuel + 1, h =>
    have hf : cs.length < fuel := by simp at h; omega
    by_cases h34 : c = 34
    · subst h34; simp [escChar, parseStrBodyF, consChar, ih _ _ hf]
    · by_cases h92 : c = 92
      · subst h92; simp [escChar, parseStrBodyF, consChar, ih _ _ hf]
      · by_cases hctl : c < 32
        · by_cases h8 : c = 8
          · subst h8; simp [escChar, parseStrBodyF, consChar, ih _ _ hf]
          · by_cases h9 : c = 9
            · subst h9; simp [escChar, parseStrBodyF, consChar, ih _ _ hf]
            · by_cases h10 : c = 10
              · subst h10; simp [escChar, parseStrBodyF, consChar, ih _ _ hf]
              · by_cases h12 : c = 12
                · subst h12; simp [escChar, parseStrBodyF, consChar, ih _ _ hf]
                · by_cases h13 : c = 13
                  · subst h13; simp [escChar, parseStrBodyF, consChar, ih _ _ hf]
                  · have hdiv : c / 16 < 16 := by omega
                    have hmod : c % 16 < 16 := Nat.mod_lt _ (by omega)
                    have hesc : escChar c =
                        [92, 117, 48, 48, hexDigit (c / 16), hexDigit (c % 16)] := by
                      unfold escChar
                      rw [if_neg h34, if_neg h92, if_pos hctl, if_neg h8, if_neg h9,
                        if_neg h10, if_neg h12, if_neg h13]
                    rw [List.flatMap_cons, hesc]
                    have hstep : parseStrBodyF (fuel + 1)
                        (92 :: 117 :: 48 :: 48 :: hexDigit (c / 16) :: hexDigit (c % 16) ::
                          (cs.flatMap escChar ++ 34 :: r)) =
                        match hexVal 48, hexVal 48, hexVal (hexDigit (c / 16)),
                            hexVal (hexDigit (c % 16)) with
                        | some d1, some d2, some d3, some d4 =>
                          consChar (d1 * 4096 + d2 * 256 + d3 * 16 + d4)
                            (parseStrBodyF fuel (cs.flatMap escChar ++ 34 :: r))
                        | _, _, _, _ => none := by rfl
                    simp only [List.cons_append, List.nil_append]
                    rw [hstep]
                    rw [show hexVal 48 = some 0 from rfl, hexVal_hexDigit hdiv,
                      hexVal_hexDigit hmod]
                    rw [ih _ _ hf]
                    simp only [consChar, Option.map_some]
                    have hc : 0 * 4096 + 0 * 256 + c / 16 * 16 + c % 16 = c := by omega
                    rw [hc]
                    simp
        · have hesc : escChar c = [c] := by
            unfold escChar
            rw [if_neg h34, if_neg h92, if_neg hctl]
          rw [List.flatMap_cons, hesc]
          have hstep : parseStrBodyF (fuel + 1) (c :: (cs.flatMap escChar ++ 34 :: r)) =
              consChar c (parseStrBodyF fuel (cs.flatMap escChar ++ 34 :: r)) := by
            simp [parseStrBodyF, h34, h92]
          simp only [List.cons_append, List.nil_append]
          rw [hstep, ih _ _ hf]
          simp [consChar]

/-- The string-body decoder inverts the serializer's escaping. -/
theorem parseStrBody_ser (s r : Bytes) :
    parseStrBody (s.flatMap escChar ++ 34 :: r) = some (s, r) := by
  apply parseStrBodyF_ser
  have := length_le_flatMap_escChar s
  simp only [List.length_append, List.length_cons]
  omega

/-- The string decoder inverts the string serializer. -/
theorem parseStr_ser (s r : Bytes) : parseStr (serStr s ++ r) = some (s, r) := by
  have h : serStr s ++ r = 34 :: (s.flatMap escChar ++ 34 :: r) := by
    simp [serStr]
  rw [h]
  exact parseStrBody_ser s r

/-- Every decimal digit produced by `natDigitsRev` is below 10. -/
theorem natDigitsRev_lt10 : ∀ (fuel n d : Nat), d ∈ natDigitsRev fuel n → d < 10 := by
  intro fuel
  induction fuel with
  | zero => intro n d h; simp [natDigitsRev] at h
  | succ fuel ih =>
    intro n d h
    by_cases hn : n = 0
    · simp [natDigitsRev, hn] at h
    · simp only [natDigitsRev, if_neg hn, List.mem_cons] at h
      cases h with
      | inl h => rw [h]; exact Nat.mod_lt _ (by omega)
      | inr h => exact ih _ _ h

/-- `Nat.ofDigits` recovers the value from `natDigitsRev` given enough
fuel. -/
theorem ofDigits_natDigitsRev : ∀ (fuel n : Nat), n ≤ fuel →
    Nat.ofDigits 10 (natDigitsRev fuel n) = n := by
  intro fuel
  induction fuel with
  | zero =>
    intro n h
    have : n = 0 := by omega
    simp [natDigitsRev, this, Nat.ofDigits]
  | succ fuel ih =>
    intro n h
    by_cases hn : n = 0
    · simp [natDigitsRev, hn, Nat.ofDigits]
    · have hdiv : n / 10 ≤ fuel := by
        have := Nat.div_lt_self (by omega : 0 < n) (by omega : 1 < 10)
        omega
      simp only [natDigitsRev, if_neg hn, Nat.ofDigits_cons, ih _ hdiv]
      omega

/-- `natDigitsRev` of a positive value is non-empty. -/
theorem natDigitsRev_ne_nil (fuel n : Nat) (hn : n ≠ 0) (hf : 1 ≤ fuel) :
    natDigitsRev fuel n ≠ [] := by
  match fuel, hf with
  | fuel + 1, _ => simp [natDigitsRev, hn]

/-- Every character of a serialized natural number is a decimal digit
character. -/
theorem serNat_digits (n d : Nat) (h : d ∈ serNat n) : 48 ≤ d ∧ d ≤ 57 := by
  unfold serNat at h
  by_cases hn : n = 0
  · simp [hn] at h
    omega
  · simp only [if_neg hn, List.mem_map, List.mem_reverse] at h
    obtain ⟨e, he, rfl⟩ := h
    have := natDigitsRev_lt10 n n e he
    omega

/-- Serialized natural numbers are non-empty. -/
theorem serNat_ne_nil (n : Nat) : serNat n ≠ [] := by
  unfold serNat
  by_cases hn : n = 0
  · simp [hn]
  · simp only [if_neg hn, ne_eq, List.map_eq_nil_iff, List.reverse_eq_nil_iff]
    exact natDigitsRev_ne_nil n n hn (by omega)

/-- The digit scanner consumes exactly the mapped digits and stops at the
first non-digit character. -/
theorem spanDigits_ser : ∀ (ds : List Nat) (r : Bytes), (∀ d ∈ ds, d < 10) →
    noDigitHead r = true → spanDigits (ds.map (fun d => d + 48) ++ r) = (ds, r) := by
  intro ds
  induction ds with
  | nil =>
    intro r _ hr
    cases r with
    | nil => simp [spanDigits]
    | cons c rest =>
      have hc : ¬(48 ≤ c ∧ c ≤ 57) := by
        intro hcc
        simp [noDigitHead, hcc.1, hcc.2] at hr
      simp only [List.map_nil, List.nil_append, spanDigits]
      rw [if_neg hc]
  | cons d ds ih =>
    intro r hlt hr
    simp only [List.map_cons, List.cons_append, spanDigits]
    rw [if_pos (by have := hlt d (by simp); omega)]
    simp only [List.append_eq]
    rw [ih r (fun e he => hlt e (by simp [he])) hr]
    have hd : d + 48 - 48 = d := by omega
    rw [hd]

/-- The unsigned-decimal decoder inverts `serNat` when the remainder does
not begin with a digit. -/
theorem parseNatNum_ser (n : Nat) (r : Bytes) (hr : noDigitHead r = true) :
    parseNatNum (serNat n ++ r) = some (n, r) := by
  by_cases hn : n = 0
  · subst hn
    have hser : serNat 0 = [0].map (fun d => d + 48) := by simp [serNat]
    unfold parseNatNum
    rw [hser, spanDigits_ser [0] r (by simp) hr]
    simp [Nat.ofDigits]
  · have hser : serNat n = ((natDigitsRev n n).reverse).map (fun d => d + 48) := by
      simp [serNat, hn]
    have hlt : ∀ d ∈ (natDigitsRev n n).reverse, d < 10 := by
      intro d hd
      rw [List.mem_reverse] at hd
      exact natDigitsRev_lt10 n n d hd
    unfold parseNatNum
    rw [hser, spanDigits_ser _ r hlt hr]
    have hne : (natDigitsRev n n).reverse ≠ [] := by
      simp only [ne_eq, List.reverse_eq_nil_iff]
      exact natDigitsRev_ne_nil n n hn (by omega)
    rw [if_neg hne]
    rw [List.reverse_reverse, ofDigits_natDigitsRev n n (Nat.le_refl n)]

/-- The integer decoder inverts `serInt` when the remainder does not begin
with a digit. -/
theorem parseIntNum_ser (i : Int) (r : Bytes) (hr : noDigitHead r = true) :
    parseIntNum (serInt i ++ r) = some (i, r) := by
  cases i with
  | ofNat n =>
    obtain ⟨c, cs, hcons⟩ : ∃ c cs, serNat n = c :: cs := by
      cases hsn : serNat n with
      | nil => exact absurd hsn (serNat_ne_nil n)
      | cons c cs => exact ⟨c, cs, rfl⟩
    have hc : 48 ≤ c ∧ c ≤ 57 := serNat_digits n c (by rw [hcons]; simp)
    show parseIntNum (serNat n ++ r) = some ((n : Int), r)
    rw [hcons, List.cons_append, parseIntNum]
    rw [if_neg (by omega : ¬c = 45)]
    rw [show c :: (cs ++ r) = (c :: cs) ++ r from rfl, ← hcons, parseNatNum_ser n r hr]
    rfl
  | negSucc n =>
    show parseIntNum ((45 :: serNat (n + 1)) ++ r) = some (Int.negSucc n, r)
    rw [List.cons_append, parseIntNum, if_pos rfl, parseNatNum_ser (n + 1) r hr]
    have hneg : (-((n + 1 : Nat) : Int)) = Int.negSucc n := by
      rw [Int.negSucc_eq]
      push_cast
      ring
    simp [hneg]
    omega

/-- The `mimetype` decoder accepts `null`. -/
theorem parseMime_null (r : Bytes) : parseMime (chs "null" ++ r) = some (none, r) := by
  rw [show chs "null" ++ r = 110 :: 117 :: 108 :: 108 :: r from rfl]
  simp [parseMime, stripTok, chs]

/-- The `mimetype` decoder inverts the string serializer. -/
theorem parseMime_str (s r : Bytes) : parseMime (serStr s ++ r) = some (some s, r) := by
  rw [show serStr s ++ r = 34 :: (s.flatMap escChar ++ 34 :: r) by simp [serStr]]
  simp only [parseMime]
  rw [parseStrBody_ser]
  rfl

/-- After a serialized integer field the entry text continues with a comma,
not a digit. -/
theorem noDigitHead_created (X : Bytes) :
    noDigitHead (chs ",\"created_at\":" ++ X) = true := rfl

/-- After the serialized version field the document continues with a comma,
not a digit. -/
theorem noDigitHead_files (X : Bytes) :
    noDigitHead (chs ",\"files\":[" ++ X) = true := rfl

/-- Token fusion: the serialized field separator followed by the open of
the wrap object is the single token the entry decoder strips. -/
theorem chs_wrap_fuse (X : Bytes) :
    chs ",\"file_key_wrap\":" ++ (chs "\x7b\"nonce\":" ++ X) =
      chs ",\"file_key_wrap\":\x7b\"nonce\":" ++ X := rfl

/-- Token fusion: the wrap object close followed by the entry object close
is the two-brace token the entry decoder strips. -/
theorem chs_brace_fuse (X : Bytes) :
    chs "\x7d" ++ (chs "\x7d" ++ X) = chs "\x7d\x7d" ++ X := rfl

/-- The entry decoder inverts the entry serializer. -/
theorem parseEntry_ser (e : FileEntry) (r : Bytes) :
    parseEntry (serEntry e ++ r) = some (e, r) := by
  obtain ⟨eid, ename, eblob, esize, eca, ema, emime, ⟨ewn, ewc⟩⟩ := e
  cases emime with
  | none =>
    simp only [serEntry, serKeyWrap, serMime, List.append_assoc, chs_wrap_fuse,
      chs_brace_fuse]
    simp only [parseEntry, stripTok_append, parseStr_ser, parseMime_null,
      parseIntNum_ser _ _ (noDigitHead_created _)]
  | some s =>
    simp only [serEntry, serKeyWrap, serMime, List.append_assoc, chs_wrap_fuse,
      chs_brace_fuse]
    simp only [parseEntry, stripTok_append, parseStr_ser, parseMime_str,
      parseIntNum_ser _ _ (noDigitHead_created _)]

/-- The entries decoder dispatches a serialized entry to the non-empty
case: a serialized entry starts with an open brace, not the closing
bracket. -/
theorem parseEntriesTop_entry (fuel : Nat) (e : FileEntry) (X : Bytes) :
    parseEntriesTop fuel (serEntry e ++ X) = parseEntriesGo fuel (serEntry e ++ X) := rfl

/-- The non-empty entries decoder inverts the entries serializer given fuel
at least the number of entries. -/
theorem parseEntriesGo_ser : ∀ (l : List FileEntry), l ≠ [] → ∀ (fuel : Nat),
    l.length ≤ fuel → ∀ (r : Bytes),
    parseEntriesGo fuel (serFiles l ++ 93 :: r) = some (l, r) := by
  intro l
  induction l with
  | nil => intro h; exact absurd rfl h
  | cons e l ih =>
    intro _ fuel hf r
    match fuel, hf with
    | fuel + 1, hf =>
    cases l with
    | nil =>
      show parseEntriesGo (fuel + 1) (serEntry e ++ 93 :: r) = some ([e], r)
      simp only [parseEntriesGo, parseEntry_ser]
    | cons e2 l2 =>
      show parseEntriesGo (fuel + 1)
        ((serEntry e ++ 44 :: serFiles (e2 :: l2)) ++ 93 :: r) = some (e :: e2 :: l2, r)
      rw [List.append_assoc, List.cons_append]
      simp only [parseEntriesGo, parseEntry_ser]
      rw [ih (by simp) fuel (by simp at hf ⊢; omega) r]

/-- The entries decoder inverts the entries serializer. -/
theorem parseEntriesTop_ser (l : List FileEntry) (fuel : Nat) (hf : l.length ≤ fuel)
    (r : Bytes) : parseEntriesTop fuel (serFiles l ++ 93 :: r) = some (l, r) := by
  cases l with
  | nil => rfl
  | cons e l2 =>
    have hgo := parseEntriesGo_ser (e :: l2) (by simp) fuel hf r
    cases l2 with
    | nil =>
      rw [show serFiles [e] = serEntry e from rfl] at hgo ⊢
      rw [parseEntriesTop_entry]
      exact hgo
    | cons e2 l3 =>
      rw [show serFiles (e :: e2 :: l3) = serEntry e ++ 44 :: serFiles (e2 :: l3) from
        rfl] at hgo ⊢
      rw [List.append_assoc] at hgo ⊢
      rw [parseEntriesTop_entry]
      exact hgo

/-- A serialized entry is non-empty. -/
theorem serEntry_length_pos (e : FileEntry) : 1 ≤ (serEntry e).length := by
  simp only [serEntry, List.length_append]
  have h : (chs "\x7b\"id\":").length = 6 := rfl
  omega

/-- The serialized entries array is at least as long as the entry list. -/
theorem serFiles_length_ge : ∀ (l : List FileEntry), l.length ≤ (serFiles l).length := by
  intro l
  induction l with
  | nil => simp [serFiles]
  | cons e t ih =>
    cases t with
    | nil =>
      have := serEntry_length_pos e
      simp only [serFiles, List.length_cons, List.length_nil]
      omega
    | cons e2 t2 =>
      have h1 := serEntry_length_pos e
      simp only [serFiles] at ih ⊢
      simp only [List.length_append, List.length_cons] at ih ⊢
      omega

/-- Stripping a token from exactly that token succeeds with an empty
remainder. -/
theorem stripTok_self (p : Bytes) : stripTok p p = some [] := by
  have h := stripTok_append p []
  simpa using h

/-- The closing token of a serialized document splits into the array close
bracket and the object close brace. -/
theorem chs_close_split : chs "]\x7d" = 93 :: chs "\x7d" := rfl

/-- The deserializer inverts the serializer on every representable inner
catalog: `from_bytes(to_bytes(C)) == C`. -/
theorem from_to_bytes (i : InnerMetadata) : InnerMetadata.from_bytes i.to_bytes = .ok i := by
  obtain ⟨v, files⟩ := i
  have hb : (InnerMetadata.mk v files).to_bytes = chs "\x7b\"version\":" ++
      (serInt v ++ (chs ",\"files\":[" ++ (serFiles files ++ (93 :: chs "\x7d")))) := by
    simp only [InnerMetadata.to_bytes, chs_close_split, List.append_assoc]
  rw [hb]
  have hlen : files.length ≤ (chs "\x7b\"version\":" ++
      (serInt v ++ (chs ",\"files\":[" ++ (serFiles files ++ (93 :: chs "\x7d"))))).length := by
    have := serFiles_length_ge files
    simp only [List.length_append, List.length_cons]
    omega
  simp only [InnerMetadata.from_bytes, stripTok_append,
    parseIntNum_ser _ _ (noDigitHead_files _)]
  rw [parseEntriesTop_ser files _ hlen (chs "\x7d")]
  simp [stripTok_self]

/-- `load_vault` inverts `save_vault`: unpack-after-pack recovers the same
KDF parameters, salt, nonce and ciphertext (parameters in `>I` range, salt
16 bytes, nonce 12 bytes). -/
theorem load_save_vault (t m p : Nat) (salt nonce ct : Bytes)
    (ht : t < 4294967296) (hm : m < 4294967296) (hp : p < 4294967296)
    (hs : salt.length = 16) (hn : nonce.length = 12) :
    load_vault (save_vault t m p salt nonce ct) = .ok (t, m, p, salt, nonce, ct) := by
  have hform : save_vault t m p salt nonce ct =
      69 :: 70 :: 83 :: 49 :: 1 ::
      (t / 16777216 % 256) :: (t / 65536 % 256) :: (t / 256 % 256) :: (t % 256) ::
      (m / 16777216 % 256) :: (m / 65536 % 256) :: (m / 256 % 256) :: (m % 256) ::
      (p / 16777216 % 256) :: (p / 65536 % 256) :: (p / 256 % 256) :: (p % 256) ::
      (salt ++ (nonce ++ ct)) := rfl
  rw [hform]
  unfold load_vault
  rw [if_neg (by
    simp only [List.length_cons, List.length_append, hs, hn, VAULT_HDR_SIZE]
    omega)]
  rw [if_neg (fun hne => hne rfl)]
  rw [if_neg (fun hne => hne rfl)]
  refine congrArg Except.ok ?_
  refine Prod.mk.injEq .. |>.mpr ⟨?_, ?_⟩
  · show (t / 16777216 % 256) * 16777216 + (t / 65536 % 256) * 65536 +
      (t / 256 % 256) * 256 + t % 256 = t
    omega
  refine Prod.mk.injEq .. |>.mpr ⟨?_, ?_⟩
  · show (m / 16777216 % 256) * 16777216 + (m / 65536 % 256) * 65536 +
      (m / 256 % 256) * 256 + m % 256 = m
    omega
  refine Prod.mk.injEq .. |>.mpr ⟨?_, ?_⟩
  · show (p / 16777216 % 256) * 16777216 + (p / 65536 % 256) * 65536 +
      (p / 256 % 256) * 256 + p % 256 = p
    omega
  refine Prod.mk.injEq .. |>.mpr ⟨?_, ?_⟩
  · show (salt ++ (nonce ++ ct)).take 16 = salt
    exact List.take_left' hs
  refine Prod.mk.injEq .. |>.mpr ⟨?_, ?_⟩
  · show (List.drop 16 (salt ++ (nonce ++ ct))).take 12 = nonce
    rw [List.drop_left' hs]
    exact List.take_left' hn
  · show List.drop 28 (salt ++ (nonce ++ ct)) = ct
    rw [show (28 : Nat) = salt.length + 12 by omega, List.drop_append]
    exact List.drop_left' hn

/-- Ciphertext length under the ideal AEAD: plaintext length plus the
16-byte tag. -/
theorem aesgcm_encrypt_length (k n pt : Bytes) :
    (aesgcm_encrypt k n pt).length = pt.length + 16 := by
  simp [aesgcm_encrypt, tagOf]

/-- Reading a blob just written at the same path returns it. -/
theorem getBlob_setBlob : ∀ (l : List (Bytes × Bytes)) (k v : Bytes),
    getBlob (setBlob l k v) k = some v := by
  intro l k v
  induction l with
  | nil => simp [setBlob, getBlob]
  | cons e rest ih =>
    obtain ⟨k0, v0⟩ := e
    by_cases hk : k0 = k
    · simp [setBlob, hk, getBlob]
    · simp [setBlob, hk, getBlob, ih]

/-- Writing a blob does not disturb reads at other paths. -/
theorem getBlob_setBlob_ne : ∀ (l : List (Bytes × Bytes)) (k k2 v : Bytes),
    k ≠ k2 → getBlob (setBlob l k2 v) k = getBlob l k := by
  intro l k k2 v hne
  induction l with
  | nil =>
    simp only [setBlob, getBlob]
    rw [if_neg (fun h => hne h.symm)]
  | cons e rest ih =>
    obtain ⟨k0, v0⟩ := e
    by_cases hk : k0 = k2
    · subst hk
      simp only [setBlob, if_pos rfl, getBlob]
      rw [if_neg (fun h => hne h.symm), if_neg (fun h => hne h.symm)]
    · simp only [setBlob, if_neg hk, getBlob]
      by_cases hk0 : k0 = k
      · rw [if_pos hk0, if_pos hk0]
      · rw [if_neg hk0, if_neg hk0, ih]

/-- `unlock` of a repository whose vault was saved with `save_vault` under
the master key derived from the supplied passphrase succeeds and returns
the saved inner catalog, the derived key and the header parameters. -/
theorem unlock_save (pass : Bytes) (t m par : Nat) (salt : Bytes) (c : Nat)
    (i : InnerMetadata) (blobs : List (Bytes × Bytes)) (ctr : Nat)
    (ht : t < 4294967296) (hm : m < 4294967296) (hp : par < 4294967296)
    (hs : salt.length = 16) :
    unlock (FS.mk (some (save_vault t m par salt (rand c 12)
        (aesgcm_encrypt (derive_kmaster pass salt t m par) (rand c 12) i.to_bytes)))
      blobs ctr) pass =
      .ok (i, derive_kmaster pass salt t m par, Kdf.mk t m par salt) := by
  unfold unlock
  simp only
  rw [load_save_vault t m par salt (rand c 12) _ ht hm hp hs (rand_length c 12 (by omega))]
  simp only [aead_decrypt]
  rw [aesgcm_decrypt_encrypt]
  simp only
  rw [from_to_bytes]

/-- The GCM tags of the catalog ciphertext under master keys derived from
two different passphrases (same salt and parameters) differ. -/
theorem tag_derive_ne {p p2 : Bytes} (salt : Bytes) (t m par : Nat) (n n2 : Bytes)
    (hne : p2 ≠ p) :
    tagOf (derive_kmaster p salt t m par) n ≠ tagOf (derive_kmaster p2 salt t m par) n2 := by
  intro h
  obtain ⟨h6, -⟩ := tagOf_eq_iff.mp h
  rw [derive_take6, derive_take6] at h6
  have h6e : encodeList p = encodeList p2 := by
    simpa using h6
  exact hne (encodeList_inj h6e).symm

/-- `unlock` with a different passphrase than the one the vault was saved
under fails with `AuthenticationFailure`. -/
theorem unlock_wrong (pass pass2 : Bytes) (t m par : Nat) (salt : Bytes) (c : Nat)
    (body : Bytes) (blobs : List (Bytes × Bytes)) (ctr : Nat)
    (hne : pass2 ≠ pass)
    (ht : t < 4294967296) (hm : m < 4294967296) (hp : par < 4294967296)
    (hs : salt.length = 16) :
    unlock (FS.mk (some (save_vault t m par salt (rand c 12)
        (aesgcm_encrypt (derive_kmaster pass salt t m par) (rand c 12) body)))
      blobs ctr) pass2 = .error .authFailure := by
  unfold unlock
  simp only
  rw [load_save_vault t m par salt (rand c 12) _ ht hm hp hs (rand_length c 12 (by omega))]
  simp only [aead_decrypt]
  rw [aesgcm_decrypt_mismatch _ _ _ _ _ (tag_derive_ne salt t m par _ _ hne)]

/-- `unlock` reads only the vault file: its result is determined by the
vault content. -/
theorem unlock_vault_only (fs1 fs2 : FS) (pass : Bytes) (h : fs1.vault = fs2.vault) :
    unlock fs1 pass = unlock fs2 pass := by
  unfold unlock
  rw [h]

/-- Inversion of a successful `load_vault`: the extracted salt is 16 bytes
and the nonce 12 bytes. -/
theorem load_vault_ok_inv (data : Bytes) (t m p : Nat) (salt nonce ct : Bytes)
    (h : load_vault data = .ok (t, m, p, salt, nonce, ct)) :
    salt.length = 16 ∧ nonce.length = 12 := by
  unfold load_vault at h
  split at h
  · exact absurd h (by simp)
  · split at h
    · exact absurd h (by simp)
    · split at h
      · exact absurd h (by simp)
      · rename_i hlen _ _
        simp only [not_lt, VAULT_HDR_SIZE] at hlen
        simp only [Except.ok.injEq, Prod.mk.injEq] at h
        obtain ⟨-, -, -, hsalt, hnonce, -⟩ := h
        constructor
        · rw [← hsalt]
          simp only [List.length_take, List.length_drop]
          omega
        · rw [← hnonce]
          simp only [List.length_take, List.length_drop]
          omega

/-- Inversion of a successful `unlock`: the master key is derived from the
passphrase and the echoed KDF parameters, and the salt is 16 bytes. -/
theorem unlock_ok_inv (fs : FS) (pass : Bytes) (inner : InnerMetadata) (km : Bytes)
    (kdf : Kdf) (h : unlock fs pass = .ok (inner, km, kdf)) :
    km = derive_kmaster pass kdf.salt kdf.t kdf.m kdf.p ∧ kdf.salt.length = 16 := by
  unfold unlock at h
  cases hv : fs.vault with
  | none =>
    simp only [hv] at h
    exact Except.noConfusion h
  | some data =>
    simp only [hv] at h
    cases hl : load_vault data with
    | error e =>
      simp only [hl] at h
      exact Except.noConfusion h
    | ok res =>
      obtain ⟨t, m, par, salt, nonce, ct⟩ := res
      simp only [hl] at h
      cases hd : aead_decrypt (derive_kmaster pass salt t m par) nonce ct with
      | error e =>
        simp only [hd] at h
        exact Except.noConfusion h
      | ok ib =>
        simp only [hd] at h
        cases hf : InnerMetadata.from_bytes ib with
        | error e =>
          simp only [hf] at h
          exact Except.noConfusion h
        | ok inner2 =>
          simp only [hf, Except.ok.injEq, Prod.mk.injEq] at h
          obtain ⟨-, hkm, hkdf⟩ := h
          subst hkdf
          exact ⟨hkm.symm, (load_vault_ok_inv data t m par salt nonce ct hl).1⟩

/-- C6: for every inner catalog value representable by the schema,
deserializing the serialization yields a structurally equal catalog:
`from_bytes(to_bytes(C)) == C`. -/
theorem C6_inner_catalog_roundtrip (i : InnerMetadata) :
    InnerMetadata.from_bytes (InnerMetadata.to_bytes i) = .ok i :=
  from_to_bytes i

/-- C7 counterexample: a byte sequence that deserializes to an inner
catalog with two file entries sharing the id `"a"` loads successfully —
`from_bytes` performs no duplicate-id check — rather than failing with
`CorruptCatalog` as the claim states. -/
theorem C7_counterexample :
    InnerMetadata.from_bytes
        (InnerMetadata.to_bytes (InnerMetadata.mk 1 [sampleEntry, sampleEntry])) =
      .ok (InnerMetadata.mk 1 [sampleEntry, sampleEntry]) ∧
    sampleEntry.id = sampleEntry.id ∧
    InnerMetadata.from_bytes
        (InnerMetadata.to_bytes (InnerMetadata.mk 1 [sampleEntry, sampleEntry])) ≠
      .error .corruptCatalog := by
  refine ⟨from_to_bytes _, rfl, ?_⟩
  rw [from_to_bytes]
  simp

/-- C7 (amended): loading performs no duplicate-id validation: every byte
sequence that deserializes to an inner catalog containing two file entries
with the same id is returned as-is, with both entries present. -/
theorem C7_duplicate_ids_load (v : Int) (e : FileEntry) :
    InnerMetadata.from_bytes (InnerMetadata.to_bytes (InnerMetadata.mk v [e, e])) =
      .ok (InnerMetadata.mk v [e, e]) :=
  from_to_bytes _

/-- C5 counterexample: the packed catalog header is 45 bytes, not 49, at
the default parameter assignment (4+1+4+4+4+16+12 = 45). -/
theorem C5_counterexample :
    VAULT_HDR_SIZE = 45 ∧ ¬(VAULT_HDR_SIZE = 49) ∧
    (save_vault DEFAULT_T_COST DEFAULT_M_COST_KiB DEFAULT_PARALLELISM
      (rand 0 16) (rand 1 12) []).length = 45 := by
  refine ⟨rfl, by decide, by decide⟩

/-- C5 (amended): the packed catalog header (magic, version, t_cost,
m_cost, parallelism, salt, nonce, big-endian, no padding) is exactly 45
bytes for every parameter assignment, and load after save recovers the
same `(t, m, p, salt, nonce, ciphertext)` tuple. -/
theorem C5_header_size_roundtrip (t m p : Nat) (salt nonce ct : Bytes)
    (ht : t < 4294967296) (hm : m < 4294967296) (hp : p < 4294967296)
    (hs : salt.length = 16) (hn : nonce.length = 12) :
    (save_vault t m p salt nonce ct).length = VAULT_HDR_SIZE + ct.length ∧
    VAULT_HDR_SIZE = 45 ∧
    load_vault (save_vault t m p salt nonce ct) = .ok (t, m, p, salt, nonce, ct) := by
  refine ⟨?_, rfl, load_save_vault t m p salt nonce ct ht hm hp hs hn⟩
  have hform : save_vault t m p salt nonce ct =
      69 :: 70 :: 83 :: 49 :: 1 ::
      (t / 16777216 % 256) :: (t / 65536 % 256) :: (t / 256 % 256) :: (t % 256) ::
      (m / 16777216 % 256) :: (m / 65536 % 256) :: (m / 256 % 256) :: (m % 256) ::
      (p / 16777216 % 256) :: (p / 65536 % 256) :: (p / 256 % 256) :: (p % 256) ::
      (salt ++ (nonce ++ ct)) := rfl
  rw [hform]
  simp only [List.length_cons, List.length_append, hs, hn, VAULT_HDR_SIZE]
  omega

/-- Witness for C5 (amended) at the default KDF parameters with a concrete
16-byte salt, 12-byte nonce and empty ciphertext. -/
theorem C5_header_size_roundtrip_witness :
    ((4 : Nat) < 4294967296 ∧ (262144 : Nat) < 4294967296 ∧ (2 : Nat) < 4294967296 ∧
      (rand 0 16).length = 16 ∧ (rand 1 12).length = 12) ∧
    ((save_vault 4 262144 2 (rand 0 16) (rand 1 12) []).length = VAULT_HDR_SIZE + ([] : Bytes).length ∧
      VAULT_HDR_SIZE = 45 ∧
      load_vault (save_vault 4 262144 2 (rand 0 16) (rand 1 12) []) =
        .ok (4, 262144, 2, rand 0 16, rand 1 12, [])) :=
  ⟨⟨by decide, by decide, by decide, by decide, by decide⟩,
    C5_header_size_roundtrip 4 262144 2 (rand 0 16) (rand 1 12) []
      (by decide) (by decide) (by decide) (by decide) (by decide)⟩

/-- C3: on a catalog created with passphrase `p`, `unlock` with any other
passphrase fails with `AuthenticationFailure`, and the catalog file on
disk is unchanged byte-for-byte by the failed unlock. -/
theorem C3_wrong_passphrase_fails (p p2 : Bytes) (t m par : Nat)
    (hne : p2 ≠ p)
    (ht : t < 4294967296) (hm : m < 4294967296) (hp : par < 4294967296) :
    (unlockS (cmd_init (FS.mk none [] 0) p t m par false).2 p2).1 = .error .authFailure ∧
    (unlockS (cmd_init (FS.mk none [] 0) p t m par false).2 p2).2.vault =
      (cmd_init (FS.mk none [] 0) p t m par false).2.vault := by
  have hinit : (cmd_init (FS.mk none [] 0) p t m par false).2 =
      FS.mk (some (save_vault t m par (rand 0 16) (rand 1 12)
        (aesgcm_encrypt (derive_kmaster p (rand 0 16) t m par) (rand 1 12)
          (InnerMetadata.mk 1 []).to_bytes))) [] 2 := rfl
  constructor
  · show unlock (cmd_init (FS.mk none [] 0) p t m par false).2 p2 = .error .authFailure
    rw [hinit]
    exact unlock_wrong p p2 t m par (rand 0 16) 1 _ [] 2 hne ht hm hp
      (rand_length 0 16 (by omega))
  · rfl

/-- Witness for C3: passphrases `[2] ≠ [1]` at the default KDF
parameters. -/
theorem C3_wrong_passphrase_fails_witness :
    (([2] : Bytes) ≠ [1] ∧ (4 : Nat) < 4294967296 ∧ (262144 : Nat) < 4294967296 ∧
      (2 : Nat) < 4294967296) ∧
    ((unlockS (cmd_init (FS.mk none [] 0) [1] 4 262144 2 false).2 [2]).1 =
        .error .authFailure ∧
      (unlockS (cmd_init (FS.mk none [] 0) [1] 4 262144 2 false).2 [2]).2.vault =
        (cmd_init (FS.mk none [] 0) [1] 4 262144 2 false).2.vault) :=
  ⟨⟨by decide, by decide, by decide, by decide⟩,
    C3_wrong_passphrase_fails [1] [2] 4 262144 2 (by decide) (by decide) (by decide)
      (by decide)⟩

set_option maxRecDepth 100000 in
set_option maxHeartbeats 4000000 in
/-- C4 counterexample: in `tamperedRepo` the target blob is 20 bytes long —
shorter than `12 + tag_size = 28` — yet `cmd_extract` does not fail with
`CorruptBlob`: the code's guard is `len(blob) < 13`, so the 20-byte blob
proceeds to AEAD decryption and fails with `AuthenticationFailure`
instead. -/
theorem C4_counterexample :
    getBlob tamperedRepo.blobs (blobPath (uuidStr 4)) = some (List.replicate 20 0) ∧
    (List.replicate 20 (0 : Nat)).length < 28 ∧ 13 ≤ (List.replicate 20 (0 : Nat)).length ∧
    (cmd_extract tamperedRepo [1] (uuidStr 4)).1 = .error .authFailure ∧
    (cmd_extract tamperedRepo [1] (uuidStr 4)).1 ≠ .error .corruptBlob := by
  refine ⟨by rfl, by decide, by decide, by rfl, ?_⟩
  intro h
  rw [show (cmd_extract tamperedRepo [1] (uuidStr 4)).1 = .error .authFailure from rfl] at h
  simp at h

/-- C4 (amended): for an extract whose target entry, wrap and blob resolve,
the code fails `CorruptBlob` exactly when the blob is shorter than 13
bytes (`nonce + 1`); any blob of at least 13 bytes proceeds to AEAD
decryption of `nonce || ct` split at 12 (where anything shorter than
`12 + tag_size` then fails authentication rather than `CorruptBlob`). -/
theorem C4_short_blob_threshold (fs : FS) (pass fid : Bytes) (inner : InnerMetadata)
    (km : Bytes) (kdf : Kdf) (e : FileEntry) (fk blob : Bytes)
    (hu : unlock fs pass = .ok (inner, km, kdf))
    (hfind : inner.files.find? (fun f => f.id == fid) = some e)
    (hwrap : aead_decrypt km (b64decode e.file_key_wrap.nonce_b64)
      (b64decode e.file_key_wrap.ct_b64) = .ok fk)
    (hblob : getBlob fs.blobs e.blob = some blob) :
    (blob.length < 13 → (cmd_extract fs pass fid).1 = .error .corruptBlob) ∧
    (13 ≤ blob.length →
      (cmd_extract fs pass fid).1 = aesgcm_decrypt fk (blob.take 12) (blob.drop 12)) := by
  unfold cmd_extract
  simp only [hu, hfind, hwrap, hblob]
  constructor
  · intro h
    rw [if_pos h]
  · intro h
    rw [if_neg (by omega)]

/-- Witness for C4 (amended): in the concrete repository `repoW` the
entry's blob is 5 bytes, below the 13-byte threshold, and extract fails
with `CorruptBlob`. -/
theorem C4_short_blob_threshold_witness :
    (unlock repoW [1] = .ok (innerW, kmW, Kdf.mk 4 262144 2 (rand 0 16)) ∧
      innerW.files.find? (fun f => f.id == chs "a") = some entryW ∧
      aead_decrypt kmW (b64decode entryW.file_key_wrap.nonce_b64)
        (b64decode entryW.file_key_wrap.ct_b64) = .ok (rand 3 32) ∧
      getBlob repoW.blobs entryW.blob = some (List.replicate 5 0)) ∧
    ((List.replicate 5 (0 : Nat)).length < 13 →
      (cmd_extract repoW [1] (chs "a")).1 = .error .corruptBlob) ∧
    (13 ≤ (List.replicate 5 (0 : Nat)).length →
      (cmd_extract repoW [1] (chs "a")).1 =
        aesgcm_decrypt (rand 3 32) ((List.replicate 5 (0 : Nat)).take 12)
          ((List.replicate 5 (0 : Nat)).drop 12)) :=
  ⟨⟨unlock_save [1] 4 262144 2 (rand 0 16) 1 innerW _ 4
        (by decide) (by decide) (by decide) (by decide),
      rfl, aesgcm_decrypt_encrypt kmW (rand 2 12) (rand 3 32), rfl⟩,
    C4_short_blob_threshold repoW [1] (chs "a") innerW kmW (Kdf.mk 4 262144 2 (rand 0 16))
      entryW (rand 3 32) (List.replicate 5 0)
      (unlock_save [1] 4 262144 2 (rand 0 16) 1 innerW _ 4
        (by decide) (by decide) (by decide) (by decide))
      rfl (aesgcm_decrypt_encrypt kmW (rand 2 12) (rand 3 32)) rfl⟩

/-- C1: for every passphrase and every byte sequence (the empty sequence
included): after `init`, an `add` of a source file with those bytes, and
an `extract` of the new entry's id under the same passphrase, the bytes
written to the output path equal the source bytes exactly. -/
theorem C1_init_add_extract_roundtrip (p name content ctime mtime : Bytes) :
    ∃ fid,
      (cmd_add (cmd_init (FS.mk none [] 0) p DEFAULT_T_COST DEFAULT_M_COST_KiB
        DEFAULT_PARALLELISM false).2 p name content ctime mtime).1 = .ok fid ∧
      (cmd_extract (cmd_add (cmd_init (FS.mk none [] 0) p DEFAULT_T_COST
        DEFAULT_M_COST_KiB DEFAULT_PARALLELISM false).2 p name content ctime mtime).2
        p fid).1 = .ok content := by
  have hinit : (cmd_init (FS.mk none [] 0) p DEFAULT_T_COST DEFAULT_M_COST_KiB
      DEFAULT_PARALLELISM false).2 =
      FS.mk (some (save_vault DEFAULT_T_COST DEFAULT_M_COST_KiB DEFAULT_PARALLELISM
        (rand 0 16) (rand 1 12)
        (aesgcm_encrypt (kmOf p) (rand 1 12) (InnerMetadata.mk 1 []).to_bytes))) [] 2 := rfl
  have hu1 : unlock (FS.mk (some (save_vault DEFAULT_T_COST DEFAULT_M_COST_KiB
      DEFAULT_PARALLELISM (rand 0 16) (rand 1 12)
      (aesgcm_encrypt (kmOf p) (rand 1 12) (InnerMetadata.mk 1 []).to_bytes))) [] 2) p =
      .ok (InnerMetadata.mk 1 [], kmOf p,
        Kdf.mk DEFAULT_T_COST DEFAULT_M_COST_KiB DEFAULT_PARALLELISM (rand 0 16)) :=
    unlock_save p DEFAULT_T_COST DEFAULT_M_COST_KiB DEFAULT_PARALLELISM (rand 0 16) 1
      (InnerMetadata.mk 1 []) [] 2 (by decide) (by decide) (by decide) (by decide)
  have hadd : cmd_add (FS.mk (some (save_vault DEFAULT_T_COST DEFAULT_M_COST_KiB
      DEFAULT_PARALLELISM (rand 0 16) (rand 1 12)
      (aesgcm_encrypt (kmOf p) (rand 1 12) (InnerMetadata.mk 1 []).to_bytes))) [] 2)
      p name content ctime mtime =
      (.ok (uuidStr 4),
        FS.mk (some (save_vault DEFAULT_T_COST DEFAULT_M_COST_KiB DEFAULT_PARALLELISM
          (rand 0 16) (rand 6 12) (aesgcm_encrypt (kmOf p) (rand 6 12)
            (InnerMetadata.mk 1 [addedEntry p name content ctime mtime]).to_bytes)))
        (setBlob [] (blobPath (uuidStr 4))
          (rand 3 12 ++ aesgcm_encrypt (rand 2 32) (rand 3 12) content)) 7) := by
    unfold cmd_add
    rw [hu1]
    rfl
  refine ⟨uuidStr 4, ?_, ?_⟩
  · rw [hinit, hadd]
  · rw [hinit, hadd]
    have hu2 : unlock (FS.mk (some (save_vault DEFAULT_T_COST DEFAULT_M_COST_KiB
        DEFAULT_PARALLELISM (rand 0 16) (rand 6 12) (aesgcm_encrypt (kmOf p) (rand 6 12)
          (InnerMetadata.mk 1 [addedEntry p name content ctime mtime]).to_bytes)))
        (setBlob [] (blobPath (uuidStr 4))
          (rand 3 12 ++ aesgcm_encrypt (rand 2 32) (rand 3 12) content)) 7) p =
        .ok (InnerMetadata.mk 1 [addedEntry p name content ctime mtime], kmOf p,
          Kdf.mk DEFAULT_T_COST DEFAULT_M_COST_KiB DEFAULT_PARALLELISM (rand 0 16)) :=
      unlock_save p DEFAULT_T_COST DEFAULT_M_COST_KiB DEFAULT_PARALLELISM (rand 0 16) 6
        (InnerMetadata.mk 1 [addedEntry p name content ctime mtime]) _ 7
        (by decide) (by decide) (by decide) (by decide)
    unfold cmd_extract
    have hfind : (InnerMetadata.mk 1 [addedEntry p name content ctime mtime]).files.find?
        (fun f => f.id == uuidStr 4) = some (addedEntry p name content ctime mtime) := by
      simp [List.find?, addedEntry]
    have hwrap : aead_decrypt (kmOf p)
        (b64decode (addedEntry p name content ctime mtime).file_key_wrap.nonce_b64)
        (b64decode (addedEntry p name content ctime mtime).file_key_wrap.ct_b64) =
        .ok (rand 2 32) :=
      aesgcm_decrypt_encrypt (kmOf p) (rand 5 12) (rand 2 32)
    have hget : getBlob (setBlob [] (blobPath (uuidStr 4))
        (rand 3 12 ++ aesgcm_encrypt (rand 2 32) (rand 3 12) content))
        (addedEntry p name content ctime mtime).blob =
        some (rand 3 12 ++ aesgcm_encrypt (rand 2 32) (rand 3 12) content) :=
      getBlob_setBlob _ _ _
    simp only [hu2, hfind, hwrap, hget]
    have hblen : (rand 3 12 ++ aesgcm_encrypt (rand 2 32) (rand 3 12) content).length =
        content.length + 28 := by
      rw [List.length_append, rand_length 3 12 (by omega), aesgcm_encrypt_length]
      omega
    rw [if_neg (by rw [hblen]; omega)]
    have htake : (rand 3 12 ++ aesgcm_encrypt (rand 2 32) (rand 3 12) content).take 12 =
        rand 3 12 := List.take_left' (rand_length 3 12 (by omega))
    have hdrop : (rand 3 12 ++ aesgcm_encrypt (rand 2 32) (rand 3 12) content).drop 12 =
        aesgcm_encrypt (rand 2 32) (rand 3 12) content :=
      List.drop_left' (rand_length 3 12 (by omega))
    rw [htake, hdrop]
    exact aesgcm_decrypt_encrypt (rand 2 32) (rand 3 12) content

/-- The rewrap loop of `cmd_rotate_master` succeeds when every entry's
wrap decrypts under the old master key. -/
theorem rewrapAll_ok (old_km new_km : Bytes) : ∀ (l : List FileEntry) (c : Nat),
    (∀ f ∈ l, ∃ fk, aead_decrypt old_km (b64decode f.file_key_wrap.nonce_b64)
      (b64decode f.file_key_wrap.ct_b64) = .ok fk) →
    ∃ l2, rewrapAll old_km new_km c l = .ok l2 := by
  intro l
  induction l with
  | nil => exact fun c _ => ⟨[], rfl⟩
  | cons f rest ih =>
    intro c hw
    obtain ⟨fk, hfk⟩ := hw f (by simp)
    obtain ⟨l2, hl2⟩ := ih (c + 1) (fun g hg => hw g (by simp [hg]))
    refine ⟨FileEntry.mk f.id f.name f.blob f.size f.created_at f.modified_at
      f.mimetype (KeyWrap.mk (b64encode (rand c 12))
        (b64encode (aesgcm_encrypt new_km (rand c 12) fk))) :: l2, ?_⟩
    unfold rewrapAll
    rw [hfk, hl2]
    rfl

/-- C10: after `remove`, `rename`, or `rotate_master`, the persisted inner
catalog's `version` equals 1 regardless of the loaded version (these
operations rebuild the catalog with `version=1` hard-coded), whereas `add`
and `update` re-serialize the loaded version unchanged. -/
theorem C10_rebuilt_version_field (fs : FS) (pass fid newContent : Bytes)
    (inner : InnerMetadata) (km : Bytes) (kdf : Kdf) (e : FileEntry)
    (srcName content ctime mtime newName : Bytes)
    (hu : unlock fs pass = .ok (inner, km, kdf))
    (ht : kdf.t < 4294967296) (hm : kdf.m < 4294967296) (hp : kdf.p < 4294967296)
    (hfind : inner.files.find? (fun f => f.id == fid) = some e)
    (hwraps : ∀ f ∈ inner.files, ∃ fk, aead_decrypt km (b64decode f.file_key_wrap.nonce_b64)
      (b64decode f.file_key_wrap.ct_b64) = .ok fk) :
    (∃ r, unlock (cmd_rm fs pass fid).2 pass = .ok r ∧ r.1.version = 1) ∧
    (∃ r, unlock (cmd_rename fs pass fid newName).2 pass = .ok r ∧ r.1.version = 1) ∧
    (∃ r, unlock (cmd_rotate_master fs pass none none none none).2 pass = .ok r ∧
      r.1.version = 1) ∧
    (∃ r, unlock (cmd_add fs pass srcName content ctime mtime).2 pass = .ok r ∧
      r.1.version = inner.version) ∧
    (∃ r, unlock (update_file_in_vault fs fid newContent pass).2 pass = .ok r ∧
      r.1.version = inner.version) := by
  obtain ⟨hkm, hsalt⟩ := unlock_ok_inv fs pass inner km kdf hu
  refine ⟨?_, ?_, ?_, ?_, ?_⟩
  · have hst : (cmd_rm fs pass fid).2 = FS.mk (some (save_vault kdf.t kdf.m kdf.p kdf.salt
        (rand fs.ctr 12) (aesgcm_encrypt (derive_kmaster pass kdf.salt kdf.t kdf.m kdf.p)
          (rand fs.ctr 12)
          (InnerMetadata.mk 1 (inner.files.filter (fun f => f.id ≠ fid))).to_bytes)))
        (delBlob fs.blobs e.blob) (fs.ctr + 1) := by
      unfold cmd_rm
      simp only [hu, hfind]
      rfl
    refine ⟨(InnerMetadata.mk 1 (inner.files.filter (fun f => f.id ≠ fid)),
      derive_kmaster pass kdf.salt kdf.t kdf.m kdf.p, Kdf.mk kdf.t kdf.m kdf.p kdf.salt),
      ?_, rfl⟩
    rw [hst]
    exact unlock_save pass kdf.t kdf.m kdf.p kdf.salt fs.ctr _ _ _ ht hm hp hsalt
  · have hst : (cmd_rename fs pass fid newName).2 = FS.mk (some (save_vault kdf.t kdf.m
        kdf.p kdf.salt (rand fs.ctr 12)
        (aesgcm_encrypt (derive_kmaster pass kdf.salt kdf.t kdf.m kdf.p) (rand fs.ctr 12)
          (InnerMetadata.mk 1 (updateFirst (fun f => f.id == fid)
            (fun f => { f with name := newName }) inner.files)).to_bytes)))
        fs.blobs (fs.ctr + 1) := by
      unfold cmd_rename
      simp only [hu, hfind]
      rfl
    refine ⟨(InnerMetadata.mk 1 (updateFirst (fun f => f.id == fid)
        (fun f => { f with name := newName }) inner.files),
      derive_kmaster pass kdf.salt kdf.t kdf.m kdf.p, Kdf.mk kdf.t kdf.m kdf.p kdf.salt),
      ?_, rfl⟩
    rw [hst]
    exact unlock_save pass kdf.t kdf.m kdf.p kdf.salt fs.ctr _ _ _ ht hm hp hsalt
  · obtain ⟨l2, hl2⟩ := rewrapAll_ok km
      (derive_kmaster pass (rand fs.ctr 16) kdf.t kdf.m kdf.p) inner.files (fs.ctr + 1)
      hwraps
    have hst : (cmd_rotate_master fs pass none none none none).2 = FS.mk
        (some (save_vault kdf.t kdf.m kdf.p (rand fs.ctr 16)
          (rand (fs.ctr + 1 + inner.files.length) 12)
          (aesgcm_encrypt (derive_kmaster pass (rand fs.ctr 16) kdf.t kdf.m kdf.p)
            (rand (fs.ctr + 1 + inner.files.length) 12)
            (InnerMetadata.mk 1 l2).to_bytes)))
        fs.blobs (fs.ctr + 2 + inner.files.length) := by
      unfold cmd_rotate_master
      simp only [hu, Option.getD_none, hl2]
      rfl
    refine ⟨(InnerMetadata.mk 1 l2,
      derive_kmaster pass (rand fs.ctr 16) kdf.t kdf.m kdf.p,
      Kdf.mk kdf.t kdf.m kdf.p (rand fs.ctr 16)), ?_, rfl⟩
    rw [hst]
    exact unlock_save pass kdf.t kdf.m kdf.p (rand fs.ctr 16)
      (fs.ctr + 1 + inner.files.length) _ _ _ ht hm hp (rand_length fs.ctr 16 (by omega))
  · have hst : (cmd_add fs pass srcName content ctime mtime).2 = FS.mk
        (some (save_vault kdf.t kdf.m kdf.p kdf.salt (rand (fs.ctr + 4) 12)
          (aesgcm_encrypt (derive_kmaster pass kdf.salt kdf.t kdf.m kdf.p)
            (rand (fs.ctr + 4) 12)
            (InnerMetadata.mk inner.version (inner.files ++
              [FileEntry.mk (uuidStr (fs.ctr + 2)) srcName (blobPath (uuidStr (fs.ctr + 2)))
                (Int.ofNat content.length) ctime mtime none
                (KeyWrap.mk (b64encode (rand (fs.ctr + 3) 12))
                  (b64encode (aesgcm_encrypt
                    (derive_kmaster pass kdf.salt kdf.t kdf.m kdf.p)
                    (rand (fs.ctr + 3) 12) (rand fs.ctr 32))))])).to_bytes)))
        (setBlob fs.blobs (blobPath (uuidStr (fs.ctr + 2)))
          (rand (fs.ctr + 1) 12 ++ aesgcm_encrypt (rand fs.ctr 32) (rand (fs.ctr + 1) 12)
            content))
        (fs.ctr + 5) := by
      unfold cmd_add
      simp only [hu]
      rw [← hkm]
      rfl
    refine ⟨(InnerMetadata.mk inner.version (inner.files ++
        [FileEntry.mk (uuidStr (fs.ctr + 2)) srcName (blobPath (uuidStr (fs.ctr + 2)))
          (Int.ofNat content.length) ctime mtime none
          (KeyWrap.mk (b64encode (rand (fs.ctr + 3) 12))
            (b64encode (aesgcm_encrypt (derive_kmaster pass kdf.salt kdf.t kdf.m kdf.p)
              (rand (fs.ctr + 3) 12) (rand fs.ctr 32))))]),
      derive_kmaster pass kdf.salt kdf.t kdf.m kdf.p, Kdf.mk kdf.t kdf.m kdf.p kdf.salt),
      ?_, rfl⟩
    rw [hst]
    exact unlock_save pass kdf.t kdf.m kdf.p kdf.salt (fs.ctr + 4) _ _ _ ht hm hp hsalt
  · have hst : (update_file_in_vault fs fid newContent pass).2 = FS.mk
        (some (save_vault kdf.t kdf.m kdf.p kdf.salt (rand (fs.ctr + 3) 12)
          (aesgcm_encrypt (derive_kmaster pass kdf.salt kdf.t kdf.m kdf.p)
            (rand (fs.ctr + 3) 12)
            (InnerMetadata.mk inner.version (updateFirst (fun f => f.id == fid)
              (fun f => FileEntry.mk f.id f.name f.blob (Int.ofNat newContent.length)
                f.created_at f.modified_at f.mimetype
                (KeyWrap.mk (b64encode (rand (fs.ctr + 2) 12))
                  (b64encode (aesgcm_encrypt
                    (derive_kmaster pass kdf.salt kdf.t kdf.m kdf.p)
                    (rand (fs.ctr + 2) 12) (rand fs.ctr 32)))))
              inner.files)).to_bytes)))
        (setBlob fs.blobs (blobPath fid)
          (rand (fs.ctr + 1) 12 ++ aesgcm_encrypt (rand fs.ctr 32) (rand (fs.ctr + 1) 12)
            newContent))
        (fs.ctr + 4) := by
      unfold update_file_in_vault
      simp only [hu, hfind]
      rw [← hkm]
      rfl
    refine ⟨(InnerMetadata.mk inner.version (updateFirst (fun f => f.id == fid)
        (fun f => FileEntry.mk f.id f.name f.blob (Int.ofNat newContent.length)
          f.created_at f.modified_at f.mimetype
          (KeyWrap.mk (b64encode (rand (fs.ctr + 2) 12))
            (b64encode (aesgcm_encrypt (derive_kmaster pass kdf.salt kdf.t kdf.m kdf.p)
              (rand (fs.ctr + 2) 12) (rand fs.ctr 32)))))
        inner.files),
      derive_kmaster pass kdf.salt kdf.t kdf.m kdf.p, Kdf.mk kdf.t kdf.m kdf.p kdf.salt),
      ?_, rfl⟩
    rw [hst]
    exact unlock_save pass kdf.t kdf.m kdf.p kdf.salt (fs.ctr + 3) _ _ _ ht hm hp hsalt

/-- Witness for C10 on the concrete repository `repoV7`, whose loaded
catalog has `version = 7`. -/
theorem C10_rebuilt_version_field_witness :
    (unlock repoV7 [1] = .ok (innerV7, kmW, Kdf.mk 4 262144 2 (rand 0 16)) ∧
      (Kdf.mk 4 262144 2 (rand 0 16)).t < 4294967296 ∧
      (Kdf.mk 4 262144 2 (rand 0 16)).m < 4294967296 ∧
      (Kdf.mk 4 262144 2 (rand 0 16)).p < 4294967296 ∧
      innerV7.files.find? (fun f => f.id == chs "a") = some entryW ∧
      (∀ f ∈ innerV7.files, ∃ fk, aead_decrypt kmW (b64decode f.file_key_wrap.nonce_b64)
        (b64decode f.file_key_wrap.ct_b64) = .ok fk)) ∧
    ((∃ r, unlock (cmd_rm repoV7 [1] (chs "a")).2 [1] = .ok r ∧ r.1.version = 1) ∧
      (∃ r, unlock (cmd_rename repoV7 [1] (chs "a") (chs "N")).2 [1] = .ok r ∧
        r.1.version = 1) ∧
      (∃ r, unlock (cmd_rotate_master repoV7 [1] none none none none).2 [1] = .ok r ∧
        r.1.version = 1) ∧
      (∃ r, unlock (cmd_add repoV7 [1] (chs "s") [6] (chs "C") (chs "M")).2 [1] = .ok r ∧
        r.1.version = innerV7.version) ∧
      (∃ r, unlock (update_file_in_vault repoV7 (chs "a") [5] [1]).2 [1] = .ok r ∧
        r.1.version = innerV7.version)) :=
  have hu : unlock repoV7 [1] = .ok (innerV7, kmW, Kdf.mk 4 262144 2 (rand 0 16)) :=
    unlock_save [1] 4 262144 2 (rand 0 16) 1 innerV7 [] 4
      (by decide) (by decide) (by decide) (by decide)
  have hwraps : ∀ f ∈ innerV7.files, ∃ fk, aead_decrypt kmW
      (b64decode f.file_key_wrap.nonce_b64) (b64decode f.file_key_wrap.ct_b64) = .ok fk := by
    intro f hf
    simp only [innerV7, List.mem_singleton] at hf
    subst hf
    exact ⟨rand 3 32, aesgcm_decrypt_encrypt kmW (rand 2 12) (rand 3 32)⟩
  ⟨⟨hu, by decide, by decide, by decide, rfl, hwraps⟩,
    C10_rebuilt_version_field repoV7 [1] (chs "a") [5] innerV7 kmW
      (Kdf.mk 4 262144 2 (rand 0 16)) entryW (chs "s") [6] (chs "C") (chs "M") (chs "N")
      hu (by decide) (by decide) (by decide) rfl hwraps⟩

/-- `updateFirst` relates the old and new lists pointwise: the replaced
element satisfies the matched relation, every other element is kept. -/
theorem updateFirst_forall₂ (q : FileEntry → Bool) (g : FileEntry → FileEntry)
    (P : FileEntry → FileEntry → Prop)
    (hP : ∀ x, q x = true → P x (g x)) (hRefl : ∀ x, P x x) :
    ∀ l : List FileEntry, List.Forall₂ P l (updateFirst q g l) := by
  intro l
  induction l with
  | nil => exact List.Forall₂.nil
  | cons x xs ih =>
    by_cases hq : q x = true
    · rw [show updateFirst q g (x :: xs) = g x :: xs by simp [updateFirst, hq]]
      exact List.Forall₂.cons (hP x hq) (List.forall₂_same.mpr (fun y _ => hRefl y))
    · rw [show updateFirst q g (x :: xs) = x :: updateFirst q g xs by
        simp [updateFirst, hq]]
      exact List.Forall₂.cons (hRefl x) ih

/-- Finding by id after `updateFirst` with an id-preserving replacement
returns the replaced first match. -/
theorem find_updateFirst (fid : Bytes) (g : FileEntry → FileEntry)
    (hid : ∀ f, (g f).id = f.id) :
    ∀ l : List FileEntry,
      (updateFirst (fun f => f.id == fid) g l).find? (fun f => f.id == fid) =
        (l.find? (fun f => f.id == fid)).map g := by
  intro l
  induction l with
  | nil => rfl
  | cons x xs ih =>
    by_cases hq : (x.id == fid) = true
    · have h1 : ((g x).id == fid) = true := by rw [hid]; exact hq
      rw [show updateFirst (fun f => f.id == fid) g (x :: xs) = g x :: xs by
        simp [updateFirst, hq]]
      simp [List.find?, h1, hq]
    · have h0 : (x.id == fid) = false := by
        cases h : (x.id == fid) with
        | false => rfl
        | true => exact absurd h hq
      rw [show updateFirst (fun f => f.id == fid) g (x :: xs) =
        x :: updateFirst (fun f => f.id == fid) g xs by simp [updateFirst, hq]]
      simp [List.find?, h0, ih]

/-- C9: updating an existing entry's content changes, in the persisted
catalog, only that entry's `size` and `file_key_wrap`; its id, name, blob,
created_at, modified_at and mimetype are preserved, and every other entry
is unchanged. -/
theorem C9_update_frame (fs : FS) (pass fid newContent : Bytes) (inner : InnerMetadata)
    (km : Bytes) (kdf : Kdf) (e : FileEntry)
    (hu : unlock fs pass = .ok (inner, km, kdf))
    (ht : kdf.t < 4294967296) (hm : kdf.m < 4294967296) (hp : kdf.p < 4294967296)
    (hfind : inner.files.find? (fun f => f.id == fid) = some e)
    (hfr : ∃ cn, cn < fs.ctr ∧ e.file_key_wrap.nonce_b64 = rand cn 12) :
    (update_file_in_vault fs fid newContent pass).1 = .ok () ∧
    ∃ inner2 km2 kdf2,
      unlock (update_file_in_vault fs fid newContent pass).2 pass =
        .ok (inner2, km2, kdf2) ∧
      List.Forall₂ (fun old new =>
        new.id = old.id ∧ new.name = old.name ∧ new.blob = old.blob ∧
        new.created_at = old.created_at ∧ new.modified_at = old.modified_at ∧
        new.mimetype = old.mimetype ∧ ((old.id == fid) = false → new = old))
        inner.files inner2.files ∧
      ∀ e2, inner2.files.find? (fun f => f.id == fid) = some e2 →
        e2.size = Int.ofNat newContent.length ∧ e2.file_key_wrap ≠ e.file_key_wrap := by
  obtain ⟨hkm, hsalt⟩ := unlock_ok_inv fs pass inner km kdf hu
  obtain ⟨cn, hcn, hnonce⟩ := hfr
  have hres : (update_file_in_vault fs fid newContent pass).1 = .ok () := by
    unfold update_file_in_vault
    simp only [hu, hfind]
  have hst : (update_file_in_vault fs fid newContent pass).2 = FS.mk
      (some (save_vault kdf.t kdf.m kdf.p kdf.salt (rand (fs.ctr + 3) 12)
        (aesgcm_encrypt (derive_kmaster pass kdf.salt kdf.t kdf.m kdf.p)
          (rand (fs.ctr + 3) 12)
          (InnerMetadata.mk inner.version (updateFirst (fun f => f.id == fid)
            (fun f => FileEntry.mk f.id f.name f.blob (Int.ofNat newContent.length)
              f.created_at f.modified_at f.mimetype
              (KeyWrap.mk (b64encode (rand (fs.ctr + 2) 12))
                (b64encode (aesgcm_encrypt
                  (derive_kmaster pass kdf.salt kdf.t kdf.m kdf.p)
                  (rand (fs.ctr + 2) 12) (rand fs.ctr 32)))))
            inner.files)).to_bytes)))
      (setBlob fs.blobs (blobPath fid)
        (rand (fs.ctr + 1) 12 ++ aesgcm_encrypt (rand fs.ctr 32) (rand (fs.ctr + 1) 12)
          newContent))
      (fs.ctr + 4) := by
    unfold update_file_in_vault
    simp only [hu, hfind]
    rw [← hkm]
    rfl
  refine ⟨hres, InnerMetadata.mk inner.version (updateFirst (fun f => f.id == fid)
      (fun f => FileEntry.mk f.id f.name f.blob (Int.ofNat newContent.length)
        f.created_at f.modified_at f.mimetype
        (KeyWrap.mk (b64encode (rand (fs.ctr + 2) 12))
          (b64encode (aesgcm_encrypt (derive_kmaster pass kdf.salt kdf.t kdf.m kdf.p)
            (rand (fs.ctr + 2) 12) (rand fs.ctr 32)))))
      inner.files),
    derive_kmaster pass kdf.salt kdf.t kdf.m kdf.p, Kdf.mk kdf.t kdf.m kdf.p kdf.salt,
    ?_, ?_, ?_⟩
  · rw [hst]
    exact unlock_save pass kdf.t kdf.m kdf.p kdf.salt (fs.ctr + 3) _ _ _ ht hm hp hsalt
  · exact updateFirst_forall₂ _ _ _
      (fun x hq => ⟨rfl, rfl, rfl, rfl, rfl, rfl,
        fun habs => Bool.noConfusion (hq.symm.trans habs)⟩)
      (fun x => ⟨rfl, rfl, rfl, rfl, rfl, rfl, fun _ => rfl⟩) inner.files
  · intro e2 he2
    simp only [find_updateFirst fid (fun f => FileEntry.mk f.id f.name f.blob
      (Int.ofNat newContent.length) f.created_at f.modified_at f.mimetype
      (KeyWrap.mk (b64encode (rand (fs.ctr + 2) 12))
        (b64encode (aesgcm_encrypt (derive_kmaster pass kdf.salt kdf.t kdf.m kdf.p)
          (rand (fs.ctr + 2) 12) (rand fs.ctr 32))))) (fun f => rfl), hfind,
      Option.map_some', Option.some.injEq] at he2
    constructor
    · rw [← he2]
    · intro hcontra
      rw [← he2] at hcontra
      have hn : rand (fs.ctr + 2) 12 = e.file_key_wrap.nonce_b64 :=
        congrArg KeyWrap.nonce_b64 hcontra
      rw [hnonce] at hn
      have := rand_inj hn
      omega

/-- Witness for C9 on the concrete repository `repoV7`: updating the entry
`"a"` to the one-byte content `[9]` succeeds and the frame conditions hold. -/
theorem C9_update_frame_witness :
    (unlock repoV7 [1] = .ok (innerV7, kmW, Kdf.mk 4 262144 2 (rand 0 16)) ∧
      (Kdf.mk 4 262144 2 (rand 0 16)).t < 4294967296 ∧
      (Kdf.mk 4 262144 2 (rand 0 16)).m < 4294967296 ∧
      (Kdf.mk 4 262144 2 (rand 0 16)).p < 4294967296 ∧
      innerV7.files.find? (fun f => f.id == chs "a") = some entryW ∧
      (∃ cn, cn < repoV7.ctr ∧ entryW.file_key_wrap.nonce_b64 = rand cn 12)) ∧
    ((update_file_in_vault repoV7 (chs "a") [9] [1]).1 = .ok () ∧
      ∃ inner2 km2 kdf2,
        unlock (update_file_in_vault repoV7 (chs "a") [9] [1]).2 [1] =
          .ok (inner2, km2, kdf2) ∧
        List.Forall₂ (fun old new =>
          new.id = old.id ∧ new.name = old.name ∧ new.blob = old.blob ∧
          new.created_at = old.created_at ∧ new.modified_at = old.modified_at ∧
          new.mimetype = old.mimetype ∧ ((old.id == chs "a") = false → new = old))
          innerV7.files inner2.files ∧
        ∀ e2, inner2.files.find? (fun f => f.id == chs "a") = some e2 →
          e2.size = Int.ofNat ([9] : Bytes).length ∧
          e2.file_key_wrap ≠ entryW.file_key_wrap) :=
  have hu : unlock repoV7 [1] = .ok (innerV7, kmW, Kdf.mk 4 262144 2 (rand 0 16)) :=
    unlock_save [1] 4 262144 2 (rand 0 16) 1 innerV7 [] 4
      (by decide) (by decide) (by decide) (by decide)
  ⟨⟨hu, by decide, by decide, by decide, rfl, ⟨2, by decide, rfl⟩⟩,
    C9_update_frame repoV7 [1] (chs "a") [9] innerV7 kmW
      (Kdf.mk 4 262144 2 (rand 0 16)) entryW hu
      (by decide) (by decide) (by decide) rfl ⟨2, by decide, rfl⟩⟩

/-- C8 (with `prepare_file_add` modelled from the spec, since the GUI
imports it from `utils.core` but the source tree does not define it): a
non-cancelled folder-add batch appends all task entries to the in-memory
catalog in completion order and persists the catalog in a single save —
the next unlock returns exactly the old entries followed by the batch
entries; on cancellation the catalog file is untouched (the next unlock
returns the old catalog unchanged) while the blobs written by the worker
tasks remain in the blob store as orphans. -/
theorem C8_add_folder_batch (fs : FS) (pass : Bytes) (tasks : List AddTask)
    (inner : InnerMetadata) (km : Bytes) (kdf : Kdf)
    (hu : unlock fs pass = .ok (inner, km, kdf))
    (ht : kdf.t < 4294967296) (hm : kdf.m < 4294967296) (hp : kdf.p < 4294967296) :
    ((add_folder fs pass tasks false).1 = some (runTasks km fs.ctr fs.blobs tasks).1 ∧
      unlock (add_folder fs pass tasks false).2 pass =
        .ok (InnerMetadata.mk inner.version
          (inner.files ++ (runTasks km fs.ctr fs.blobs tasks).1), km, kdf) ∧
      (add_folder fs pass tasks false).2.blobs =
        (runTasks km fs.ctr fs.blobs tasks).2.1) ∧
    ((add_folder fs pass tasks true).1 = none ∧
      (add_folder fs pass tasks true).2.vault = fs.vault ∧
      unlock (add_folder fs pass tasks true).2 pass = .ok (inner, km, kdf) ∧
      (add_folder fs pass tasks true).2.blobs =
        (runTasks km fs.ctr fs.blobs tasks).2.1) := by
  obtain ⟨hkm, hsalt⟩ := unlock_ok_inv fs pass inner km kdf hu
  have hfalse : add_folder fs pass tasks false =
      (some (runTasks km fs.ctr fs.blobs tasks).1,
        FS.mk (some (save_vault kdf.t kdf.m kdf.p kdf.salt
          (rand (runTasks km fs.ctr fs.blobs tasks).2.2 12)
          (aesgcm_encrypt km (rand (runTasks km fs.ctr fs.blobs tasks).2.2 12)
            (InnerMetadata.mk inner.version
              (inner.files ++ (runTasks km fs.ctr fs.blobs tasks).1)).to_bytes)))
        (runTasks km fs.ctr fs.blobs tasks).2.1
        ((runTasks km fs.ctr fs.blobs tasks).2.2 + 1)) := by
    unfold add_folder
    simp only [hu]
    rfl
  have htrue : add_folder fs pass tasks true =
      (none, FS.mk fs.vault (runTasks km fs.ctr fs.blobs tasks).2.1
        (runTasks km fs.ctr fs.blobs tasks).2.2) := by
    unfold add_folder
    simp only [hu]
    rfl
  refine ⟨⟨?_, ?_, ?_⟩, ?_, ?_, ?_, ?_⟩
  · rw [hfalse]
  · rw [hfalse]
    subst hkm
    exact unlock_save pass kdf.t kdf.m kdf.p kdf.salt _ _ _ _ ht hm hp hsalt
  · rw [hfalse]
  · rw [htrue]
  · rw [htrue]
  · rw [htrue]
    exact (unlock_vault_only _ fs pass rfl).trans hu
  · rw [htrue]

/-- Witness for C8 on the concrete repository `repoV7` with a single-task
batch. -/
theorem C8_add_folder_batch_witness :
    (unlock repoV7 [1] = .ok (innerV7, kmW, Kdf.mk 4 262144 2 (rand 0 16)) ∧
      (Kdf.mk 4 262144 2 (rand 0 16)).t < 4294967296 ∧
      (Kdf.mk 4 262144 2 (rand 0 16)).m < 4294967296 ∧
      (Kdf.mk 4 262144 2 (rand 0 16)).p < 4294967296) ∧
    (((add_folder repoV7 [1] [AddTask.mk (chs "g") [3] (chs "T") (chs "T")] false).1 =
        some (runTasks kmW repoV7.ctr repoV7.blobs
          [AddTask.mk (chs "g") [3] (chs "T") (chs "T")]).1 ∧
      unlock (add_folder repoV7 [1]
          [AddTask.mk (chs "g") [3] (chs "T") (chs "T")] false).2 [1] =
        .ok (InnerMetadata.mk innerV7.version
          (innerV7.files ++ (runTasks kmW repoV7.ctr repoV7.blobs
            [AddTask.mk (chs "g") [3] (chs "T") (chs "T")]).1),
          kmW, Kdf.mk 4 262144 2 (rand 0 16)) ∧
      (add_folder repoV7 [1] [AddTask.mk (chs "g") [3] (chs "T") (chs "T")] false).2.blobs =
        (runTasks kmW repoV7.ctr repoV7.blobs
          [AddTask.mk (chs "g") [3] (chs "T") (chs "T")]).2.1) ∧
    ((add_folder repoV7 [1] [AddTask.mk (chs "g") [3] (chs "T") (chs "T")] true).1 = none ∧
      (add_folder repoV7 [1]
        [AddTask.mk (chs "g") [3] (chs "T") (chs "T")] true).2.vault = repoV7.vault ∧
      unlock (add_folder repoV7 [1]
          [AddTask.mk (chs "g") [3] (chs "T") (chs "T")] true).2 [1] =
        .ok (innerV7, kmW, Kdf.mk 4 262144 2 (rand 0 16)) ∧
      (add_folder repoV7 [1] [AddTask.mk (chs "g") [3] (chs "T") (chs "T")] true).2.blobs =
        (runTasks kmW repoV7.ctr repoV7.blobs
          [AddTask.mk (chs "g") [3] (chs "T") (chs "T")]).2.1)) :=
  have hu : unlock repoV7 [1] = .ok (innerV7, kmW, Kdf.mk 4 262144 2 (rand 0 16)) :=
    unlock_save [1] 4 262144 2 (rand 0 16) 1 innerV7 [] 4
      (by decide) (by decide) (by decide) (by decide)
  ⟨⟨hu, by decide, by decide, by decide⟩,
    C8_add_folder_batch repoV7 [1] [AddTask.mk (chs "g") [3] (chs "T") (chs "T")]
      innerV7 kmW (Kdf.mk 4 262144 2 (rand 0 16)) hu
      (by decide) (by decide) (by decide)⟩

/-- `find?` transports along `Forall₂` when the relation determines the
predicate. -/
theorem find_of_forall2 {R : FileEntry → FileEntry → Prop} (p : FileEntry → Bool)
    (hp : ∀ a b, R a b → p b = p a) :
    ∀ l l2, List.Forall₂ R l l2 → ∀ m, l.find? p = some m →
      ∃ m2, l2.find? p = some m2 ∧ R m m2 := by
  intro l l2 h
  induction h with
  | nil =>
    intro m hm
    simp [List.find?] at hm
  | @cons a b l1 l3 hab hrest ih =>
    intro m hm
    by_cases hpa : p a = true
    · have hpb : p b = true := (hp a b hab).trans hpa
      simp only [List.find?, hpa] at hm
      refine ⟨b, ?_, ?_⟩
      · simp [List.find?, hpb]
      · obtain rfl : a = m := by injection hm
        exact hab
    · have hpa' : p a = false := by
        revert hpa
        cases p a <;> simp
      have hpb : p b = false := (hp a b hab).trans hpa'
      simp only [List.find?, hpa'] at hm
      obtain ⟨m2, h2, hR2⟩ := ih m hm
      exact ⟨m2, by simp [List.find?, hpb, h2], hR2⟩

/-- Strengthen a `Forall₂` with a property of the left elements. -/
theorem forall2_and_mem {R : FileEntry → FileEntry → Prop} {P : FileEntry → Prop} :
    ∀ l l2, List.Forall₂ R l l2 → (∀ a ∈ l, P a) →
      List.Forall₂ (fun a b => R a b ∧ P a) l l2 := by
  intro l l2 h
  induction h with
  | nil => intro _; exact .nil
  | cons hab hrest ih =>
    intro hP
    exact .cons ⟨hab, hP _ (by simp)⟩ (ih fun a ha => hP a (by simp [ha]))

/-- Characterization of a successful `rewrapAll`: every field except the
wrap is preserved, the new wrap's nonce is a draw at or after the starting
counter, and the new wrap decrypts under the new master key to the same
file key the old wrap held under the old one. -/
theorem rewrapAll_forall2 (old_km new_km : Bytes) :
    ∀ (l : List FileEntry) (c : Nat) (l2 : List FileEntry),
      rewrapAll old_km new_km c l = .ok l2 →
      List.Forall₂ (fun f f2 =>
        f2.id = f.id ∧ f2.name = f.name ∧ f2.blob = f.blob ∧ f2.size = f.size ∧
        f2.created_at = f.created_at ∧ f2.modified_at = f.modified_at ∧
        f2.mimetype = f.mimetype ∧
        (∃ cw, c ≤ cw ∧ f2.file_key_wrap.nonce_b64 = rand cw 12) ∧
        (∃ fk, aead_decrypt old_km (b64decode f.file_key_wrap.nonce_b64)
            (b64decode f.file_key_wrap.ct_b64) = .ok fk ∧
          aead_decrypt new_km (b64decode f2.file_key_wrap.nonce_b64)
            (b64decode f2.file_key_wrap.ct_b64) = .ok fk)) l l2 := by
  intro l
  induction l with
  | nil =>
    intro c l2 h
    unfold rewrapAll at h
    obtain rfl : ([] : List FileEntry) = l2 := by
      injection h with h2
    exact .nil
  | cons f rest ih =>
    intro c l2 h
    unfold rewrapAll at h
    cases hd : aead_decrypt old_km (b64decode f.file_key_wrap.nonce_b64)
        (b64decode f.file_key_wrap.ct_b64) with
    | error e =>
      simp only [hd] at h
      exact Except.noConfusion h
    | ok fk =>
      simp only [hd] at h
      cases hr : rewrapAll old_km new_km (c + 1) rest with
      | error e =>
        simp only [hr] at h
        exact Except.noConfusion h
      | ok rest2 =>
        simp only [hr] at h
        obtain rfl : (FileEntry.mk f.id f.name f.blob f.size f.created_at
            f.modified_at f.mimetype (KeyWrap.mk (b64encode (rand c 12))
              (b64encode (aesgcm_encrypt new_km (rand c 12) fk))) :: rest2) = l2 := by
          injection h with h2
        refine .cons ⟨rfl, rfl, rfl, rfl, rfl, rfl, rfl, ⟨c, Nat.le_refl c, rfl⟩,
          ⟨fk, hd, aesgcm_decrypt_encrypt new_km (rand c 12) fk⟩⟩
          ((ih (c + 1) rest2 hr).imp ?_)
        intro a b hab
        obtain ⟨h1, h2, h3, h4, h5, h6, h7, ⟨cw, hcw, hn⟩, hfk⟩ := hab
        exact ⟨h1, h2, h3, h4, h5, h6, h7, ⟨cw, by omega, hn⟩, hfk⟩

set_option maxRecDepth 100000
set_option maxHeartbeats 4000000

/-- C2 counterexample: on the concrete repository `repoW` (created under
passphrase `[1]`), a rotation to the distinct new passphrase `[]` reports
success, yet afterwards unlock under the new passphrase `[]` fails with
`AuthenticationFailure` while unlock under the OLD passphrase `[1]` still
succeeds: `args.new_passphrase or args.passphrase` silently swallows an
empty new passphrase, contradicting the claim for `p' = []`. -/
theorem C2_counterexample :
    ([] : Bytes) ≠ [1] ∧
    (cmd_rotate_master repoW [1] (some []) none none none).1 = .ok () ∧
    unlock (cmd_rotate_master repoW [1] (some []) none none none).2 [] =
      .error .authFailure ∧
    (∃ r, unlock (cmd_rotate_master repoW [1] (some []) none none none).2 [1] = .ok r) := by
  have hpair : cmd_rotate_master repoW [1] (some []) none none none = (.ok (), FS.mk
      (some (save_vault 4 262144 2 (rand 4 16) (rand 6 12)
        (aesgcm_encrypt (derive_kmaster [1] (rand 4 16) 4 262144 2) (rand 6 12)
          (InnerMetadata.mk 1 [FileEntry.mk (chs "a") (chs "f") (chs "blobs/a.bin") 1
            (chs "T") (chs "T") none
            (KeyWrap.mk (b64encode (rand 5 12))
              (b64encode (aesgcm_encrypt (derive_kmaster [1] (rand 4 16) 4 262144 2)
                (rand 5 12) (rand 3 32))))]).to_bytes)))
      repoW.blobs 7) := rfl
  refine ⟨by decide, by rw [hpair], ?_, ?_⟩
  · rw [hpair]
    exact unlock_wrong [1] [] 4 262144 2 (rand 4 16) 6 _ _ _ (by decide)
      (by decide) (by decide) (by decide) (by decide)
  · rw [hpair]
    exact ⟨_, unlock_save [1] 4 262144 2 (rand 4 16) 6 _ repoW.blobs 7
      (by decide) (by decide) (by decide) (by decide)⟩

/-- C2 (amended): for a rotation from passphrase `pass` to a *nonempty*
new passphrase `p2 ≠ pass`: the rotation succeeds; unlock under `p2`
succeeds with a changed header salt and every entry's `file_key_wrap`
changed; unlock under `pass` fails with `AuthenticationFailure`; every
blob file is byte-identical to before; and every entry that extracted
successfully before extracts to the same plaintext after (under `p2`). -/
theorem C2_rotate_master (fs : FS) (pass p2 : Bytes) (inner : InnerMetadata)
    (km : Bytes) (kdf : Kdf)
    (hu : unlock fs pass = .ok (inner, km, kdf))
    (ht : kdf.t < 4294967296) (hm : kdf.m < 4294967296) (hp : kdf.p < 4294967296)
    (hne : p2 ≠ pass) (hne2 : p2 ≠ [])
    (hwraps : ∀ f ∈ inner.files, ∃ fk, aead_decrypt km
      (b64decode f.file_key_wrap.nonce_b64) (b64decode f.file_key_wrap.ct_b64) = .ok fk)
    (hsaltr : ∃ cs, cs < fs.ctr ∧ kdf.salt = rand cs 16)
    (hfr : ∀ f ∈ inner.files, ∃ cn, cn < fs.ctr ∧ f.file_key_wrap.nonce_b64 = rand cn 12) :
    (cmd_rotate_master fs pass (some p2) none none none).1 = .ok () ∧
    (∃ inner2 kdf2,
      unlock (cmd_rotate_master fs pass (some p2) none none none).2 p2 =
        .ok (inner2, derive_kmaster p2 (rand fs.ctr 16) kdf.t kdf.m kdf.p, kdf2) ∧
      kdf2.salt ≠ kdf.salt ∧
      List.Forall₂ (fun old new => new.id = old.id ∧ new.file_key_wrap ≠ old.file_key_wrap)
        inner.files inner2.files) ∧
    unlock (cmd_rotate_master fs pass (some p2) none none none).2 pass =
      .error .authFailure ∧
    (cmd_rotate_master fs pass (some p2) none none none).2.blobs = fs.blobs ∧
    (∀ fid pt, (cmd_extract fs pass fid).1 = .ok pt →
      (cmd_extract (cmd_rotate_master fs pass (some p2) none none none).2 p2 fid).1 =
        .ok pt) := by
  obtain ⟨hkm, hsalt⟩ := unlock_ok_inv fs pass inner km kdf hu
  obtain ⟨l2, hl2⟩ := rewrapAll_ok km
    (derive_kmaster p2 (rand fs.ctr 16) kdf.t kdf.m kdf.p) inner.files (fs.ctr + 1) hwraps
  have hforall := rewrapAll_forall2 km
    (derive_kmaster p2 (rand fs.ctr 16) kdf.t kdf.m kdf.p) inner.files (fs.ctr + 1) l2 hl2
  have hpair : cmd_rotate_master fs pass (some p2) none none none = (.ok (), FS.mk
      (some (save_vault kdf.t kdf.m kdf.p (rand fs.ctr 16)
        (rand (fs.ctr + 1 + inner.files.length) 12)
        (aesgcm_encrypt (derive_kmaster p2 (rand fs.ctr 16) kdf.t kdf.m kdf.p)
          (rand (fs.ctr + 1 + inner.files.length) 12)
          (InnerMetadata.mk 1 l2).to_bytes)))
      fs.blobs (fs.ctr + 2 + inner.files.length)) := by
    unfold cmd_rotate_master
    simp only [hu, Option.getD_none]
    rw [if_neg hne2]
    rw [hl2]
    rfl
  have hu2 : unlock (FS.mk
      (some (save_vault kdf.t kdf.m kdf.p (rand fs.ctr 16)
        (rand (fs.ctr + 1 + inner.files.length) 12)
        (aesgcm_encrypt (derive_kmaster p2 (rand fs.ctr 16) kdf.t kdf.m kdf.p)
          (rand (fs.ctr + 1 + inner.files.length) 12)
          (InnerMetadata.mk 1 l2).to_bytes)))
      fs.blobs (fs.ctr + 2 + inner.files.length)) p2 =
      .ok (InnerMetadata.mk 1 l2, derive_kmaster p2 (rand fs.ctr 16) kdf.t kdf.m kdf.p,
        Kdf.mk kdf.t kdf.m kdf.p (rand fs.ctr 16)) :=
    unlock_save p2 kdf.t kdf.m kdf.p (rand fs.ctr 16)
      (fs.ctr + 1 + inner.files.length) (InnerMetadata.mk 1 l2) fs.blobs
      (fs.ctr + 2 + inner.files.length) ht hm hp (rand_length fs.ctr 16 (by omega))
  refine ⟨by rw [hpair], ⟨InnerMetadata.mk 1 l2,
    Kdf.mk kdf.t kdf.m kdf.p (rand fs.ctr 16), ?_, ?_, ?_⟩, ?_, by rw [hpair], ?_⟩
  · rw [hpair]
    exact hu2
  · intro heq
    obtain ⟨cs, hcs, hseq⟩ := hsaltr
    have heq2 : rand fs.ctr 16 = rand cs 16 := by
      rw [← hseq]
      exact heq
    have := rand_inj heq2
    omega
  · refine (forall2_and_mem inner.files l2 hforall hfr).imp ?_
    intro a b hab
    obtain ⟨⟨hid, h2, h3, h4, h5, h6, h7, ⟨cw, hcw, hn2⟩, hfk⟩, cn, hcn, hn1⟩ := hab
    refine ⟨hid, ?_⟩
    intro hwe
    have heq2 : rand cw 12 = rand cn 12 := by
      rw [← hn2, ← hn1, hwe]
    have := rand_inj heq2
    omega
  · rw [hpair]
    exact unlock_wrong p2 pass kdf.t kdf.m kdf.p (rand fs.ctr 16)
      (fs.ctr + 1 + inner.files.length) _ _ _ (Ne.symm hne) ht hm hp
      (rand_length fs.ctr 16 (by omega))
  · intro fid pt hex
    unfold cmd_extract at hex
    simp only [hu] at hex
    cases hf : inner.files.find? (fun f => f.id == fid) with
    | none =>
      simp only [hf] at hex
      exact Except.noConfusion hex
    | some m =>
      simp only [hf] at hex
      cases hdm : aead_decrypt km (b64decode m.file_key_wrap.nonce_b64)
          (b64decode m.file_key_wrap.ct_b64) with
      | error e =>
        simp only [hdm] at hex
        exact Except.noConfusion hex
      | ok fk =>
        simp only [hdm] at hex
        cases hb : getBlob fs.blobs m.blob with
        | none =>
          simp only [hb] at hex
          exact Except.noConfusion hex
        | some blob =>
          simp only [hb] at hex
          by_cases hlen : blob.length < 13
          · rw [if_pos hlen] at hex
            exact Except.noConfusion hex
          · rw [if_neg hlen] at hex
            obtain ⟨m2, hf2, hR⟩ := find_of_forall2 (fun f => f.id == fid)
              (fun a b hab => by
                show (b.id == fid) = (a.id == fid)
                rw [hab.1]) inner.files l2 hforall m hf
            obtain ⟨hid, hnm, hbl, hsz, hca, hma, hmt, hcwn, fk2, hofk, hnfk⟩ := hR
            obtain rfl : fk2 = fk := by
              have h12 := hofk.symm.trans hdm
              injection h12
            rw [hpair]
            unfold cmd_extract
            simp only [hu2, hf2, hnfk, hbl, hb]
            rw [if_neg hlen]
            exact hex

/-- Witness for the amended C2 on the concrete repository `repoW`,
rotating from passphrase `[1]` to the nonempty distinct passphrase `[2]`. -/
theorem C2_rotate_master_witness :
    (unlock repoW [1] = .ok (innerW, kmW, Kdf.mk 4 262144 2 (rand 0 16)) ∧
      (4 : Nat) < 4294967296 ∧ (262144 : Nat) < 4294967296 ∧ (2 : Nat) < 4294967296 ∧
      ([2] : Bytes) ≠ [1] ∧ ([2] : Bytes) ≠ [] ∧
      (∀ f ∈ innerW.files, ∃ fk, aead_decrypt kmW (b64decode f.file_key_wrap.nonce_b64)
        (b64decode f.file_key_wrap.ct_b64) = .ok fk) ∧
      (∃ cs, cs < repoW.ctr ∧ (Kdf.mk 4 262144 2 (rand 0 16)).salt = rand cs 16) ∧
      (∀ f ∈ innerW.files, ∃ cn, cn < repoW.ctr ∧
        f.file_key_wrap.nonce_b64 = rand cn 12)) ∧
    ((cmd_rotate_master repoW [1] (some [2]) none none none).1 = .ok () ∧
      (∃ inner2 kdf2,
        unlock (cmd_rotate_master repoW [1] (some [2]) none none none).2 [2] =
          .ok (inner2, derive_kmaster [2] (rand 4 16) 4 262144 2, kdf2) ∧
        kdf2.salt ≠ rand 0 16 ∧
        List.Forall₂ (fun old new => new.id = old.id ∧
          new.file_key_wrap ≠ old.file_key_wrap) innerW.files inner2.files) ∧
      unlock (cmd_rotate_master repoW [1] (some [2]) none none none).2 [1] =
        .error .authFailure ∧
      (cmd_rotate_master repoW [1] (some [2]) none none none).2.blobs = repoW.blobs ∧
      (∀ fid pt, (cmd_extract repoW [1] fid).1 = .ok pt →
        (cmd_extract (cmd_rotate_master repoW [1] (some [2]) none none none).2
          [2] fid).1 = .ok pt)) :=
  have hu : unlock repoW [1] = .ok (innerW, kmW, Kdf.mk 4 262144 2 (rand 0 16)) :=
    unlock_save [1] 4 262144 2 (rand 0 16) 1 innerW
      [(chs "blobs/a.bin", List.replicate 5 0)] 4
      (by decide) (by decide) (by decide) (by decide)
  have hwr : ∀ f ∈ innerW.files, ∃ fk, aead_decrypt kmW
      (b64decode f.file_key_wrap.nonce_b64) (b64decode f.file_key_wrap.ct_b64) = .ok fk := by
    intro f hf
    simp only [innerW, List.mem_singleton] at hf
    subst hf
    exact ⟨rand 3 32, aesgcm_decrypt_encrypt kmW (rand 2 12) (rand 3 32)⟩
  have hfr : ∀ f ∈ innerW.files, ∃ cn, cn < repoW.ctr ∧
      f.file_key_wrap.nonce_b64 = rand cn 12 := by
    intro f hf
    simp only [innerW, List.mem_singleton] at hf
    subst hf
    exact ⟨2, by decide, rfl⟩
  ⟨⟨hu, by decide, by decide, by decide, by decide, by decide, hwr,
      ⟨0, by decide, rfl⟩, hfr⟩,
    C2_rotate_master repoW [1] [2] innerW kmW (Kdf.mk 4 262144 2 (rand 0 16)) hu
      (by decide) (by decide) (by decide) (by decide) (by decide) hwr
      ⟨0, by decide, rfl⟩ hfr⟩
